import Mathlib

/-!
Verification of the keyed mutual-exclusion map of the repository
(package `sync`, type `MutexMap`, with its per-key records `keyMutex`).

The Go code is embedded shallowly as a labelled transition system:

* `KeyMutex` is the state of one `keyMutex` record (its `key`, the
  reference `count`, and the state of its `inner` mutex).
* `MutexMap` is the registry: the top-level guard `lock`, the map
  `keyToLock`, a heap `recs` of records addressed by `Nat`, and a bump
  allocator `nextId` standing for Go heap allocation of `*keyMutex`.
* `lockGuarded` and `unlockGuarded` are the two guarded bookkeeping
  sections of the source (`MutexMap.Lock` lines between
  `mm.lock.Lock()` and `mm.lock.Unlock()`, and the body of
  `MutexMap.unlock`).
* `PC` is the program counter of one goroutine running through
  `Lock`/`Unlock`; `StepG` is the small-step interleaving semantics.
  The flag of `StepG` enables, when `true`, the misuse transition of
  calling `Unlock` a second time on a handle that was already used,
  which the source does not prevent.

Reachable states of the proper protocol satisfy the inductive invariant
`Inv`, from which the specification properties are derived.
-/

namespace MutexMapModel

/-- State of one `keyMutex` record (source: `type keyMutex struct`).
`key` is the record's key, `count` the number of goroutines having or
waiting for this lock, and `inner` the state of the record's
`inner sync.Mutex` (`true` = locked).  The back pointer `mm` of the
source is omitted: a single registry is modelled. -/
structure KeyMutex where
  key : String
  count : Int
  inner : Bool
  deriving DecidableEq

/-- The registry (source: `type MutexMap struct`).  `lock` is the
top-level guard (`lock sync.Mutex`, `true` = held), `keyToLock` the map
from keys to record addresses, `recs` the heap of `keyMutex` records and
`nextId` the bump allocator producing fresh addresses. -/
structure MutexMap where
  lock : Bool
  keyToLock : String → Option Nat
  recs : Nat → KeyMutex
  nextId : Nat

/-- Go map insert `mm.keyToLock[key] = km`. -/
def mapInsert (m : String → Option Nat) (key : String) (km : Nat) : String → Option Nat :=
  fun k => if k = key then some km else m k

/-- Go map delete `delete(mm.keyToLock, key)`. -/
def mapDelete (m : String → Option Nat) (key : String) : String → Option Nat :=
  fun k => if k = key then none else m k

/-- The guarded section of `MutexMap.Lock` (source lines between
`mm.lock.Lock()` and `mm.lock.Unlock()`):

    km, ok := mm.keyToLock[key]
    if !ok {
        km = &keyMutex{key: key, mm: mm, count: 0}
        mm.keyToLock[key] = km
    }
    km.count++

Returns the address of the record bound to the returned `Unlocker`
together with the updated registry.  The guard bit itself is handled by
the transition system. -/
def lockGuarded (mm : MutexMap) (key : String) : Nat × MutexMap :=
  let found :=
    match mm.keyToLock key with
    | some km => (km, mm)
    | none =>
      (mm.nextId,
        { mm with
          keyToLock := mapInsert mm.keyToLock key mm.nextId
          recs := Function.update mm.recs mm.nextId { key := key, count := 0, inner := false }
          nextId := mm.nextId + 1 })
  let km := found.1
  let mm1 := found.2
  (km,
    { mm1 with
      recs :=
        Function.update mm1.recs km { mm1.recs km with count := (mm1.recs km).count + 1 } })

/-- The guarded body of `MutexMap.unlock` (source):

    km, ok := mm.keyToLock[key]
    if !ok {
        panic("no lock for the given key")
    }
    km.count--
    if km.count == 0 {
        delete(mm.keyToLock, key)
    }

`none` is the panic outcome (the deferred `mm.lock.Unlock()` still runs,
which the transition system performs). -/
def unlockGuarded (mm : MutexMap) (key : String) : Option MutexMap :=
  match mm.keyToLock key with
  | none => none
  | some km =>
    let recs1 :=
      Function.update mm.recs km { mm.recs km with count := (mm.recs km).count - 1 }
    if (recs1 km).count = 0 then
      some { mm with recs := recs1, keyToLock := mapDelete mm.keyToLock key }
    else
      some { mm with recs := recs1 }

/-- Program counter of one goroutine going through `Lock` and the
returned handle's `Unlock`.  The stages follow the source line by line:

* `lAcq key`:  about to run `mm.lock.Lock()` in `Lock(key)`;
* `lBook key`: holds the guard, about to run the map bookkeeping;
* `lRel key km`: holds the guard, record `km` chosen and incremented,
  about to run `mm.lock.Unlock()`;
* `lInner key km`: about to run (or blocked in) `km.inner.Lock()`;
* `holding key km`: `Lock` returned the `Unlocker` `km`; critical section;
* `uAcq key km`: called `km.Unlock()`, hence entered `mm.unlock(key)`,
  about to run `mm.lock.Lock()`;
* `uBook key km`: holds the guard, about to run the lookup/decrement;
* `uRel key km`: holds the guard, about to run the deferred
  `mm.lock.Unlock()`;
* `uInner key km`: `mm.unlock` returned, about to run `km.inner.Unlock()`;
* `done key km`: `Unlock` returned (the stale handle `km` is kept so
  that the misuse of unlocking twice can be expressed);
* `panicked msg`: the goroutine panicked with message `msg`. -/
inductive PC
  | idle
  | lAcq (key : String)
  | lBook (key : String)
  | lRel (key : String) (km : Nat)
  | lInner (key : String) (km : Nat)
  | holding (key : String) (km : Nat)
  | uAcq (key : String) (km : Nat)
  | uBook (key : String) (km : Nat)
  | uRel (key : String) (km : Nat)
  | uInner (key : String) (km : Nat)
  | done (key : String) (km : Nat)
  | panicked (msg : String)
  deriving DecidableEq

/-- Does this program point hold the top-level guard? -/
def guardPC : PC → Bool
  | .lBook _ => true
  | .lRel _ _ => true
  | .uBook _ _ => true
  | .uRel _ _ => true
  | _ => false

/-- Does this program point hold the `inner` mutex of record `r`?
A goroutine holds it from the return of `Lock` until `km.inner.Unlock()`
inside the handle's `Unlock`. -/
def holdsLock : PC → Nat → Bool
  | .holding _ km, r => km == r
  | .uAcq _ km, r => km == r
  | .uBook _ km, r => km == r
  | .uRel _ km, r => km == r
  | .uInner _ km, r => km == r
  | _, _ => false

/-- Does this program point contribute to `count` of the record `r` of
key `k`?  These are the points after the guarded `km.count++` of `Lock`
and before the guarded `km.count--` of `unlock`. -/
def contrib : PC → String → Nat → Bool
  | .lRel k2 km, k, r => k2 == k && km == r
  | .lInner k2 km, k, r => k2 == k && km == r
  | .holding k2 km, k, r => k2 == k && km == r
  | .uAcq k2 km, k, r => k2 == k && km == r
  | .uBook k2 km, k, r => k2 == k && km == r
  | _, _, _ => false

/-- Does this program point mention record `r` under key `k` at all? -/
def usesRec : PC → String → Nat → Bool
  | .lRel k2 km, k, r => k2 == k && km == r
  | .lInner k2 km, k, r => k2 == k && km == r
  | .holding k2 km, k, r => k2 == k && km == r
  | .uAcq k2 km, k, r => k2 == k && km == r
  | .uBook k2 km, k, r => k2 == k && km == r
  | .uRel k2 km, k, r => k2 == k && km == r
  | .uInner k2 km, k, r => k2 == k && km == r
  | .done k2 km, k, r => k2 == k && km == r
  | _, _, _ => false

/-- Global state: the registry plus the program counter of each of the
`n` goroutines. -/
structure State (n : Nat) where
  mm : MutexMap
  pcs : Fin n → PC

/-- Small-step interleaving semantics: `StepG mis t s s2` says goroutine
`t` performs one step from `s` to `s2`.  Each constructor is one line of
the source.  With `mis = true` the relation additionally allows the
misuse, not prevented by the source, of calling `Unlock()` a second time
on an already used handle (`reUnlock`). -/
inductive StepG {n : Nat} (mis : Bool) (t : Fin n) : State n → State n → Prop
  /-- A goroutine calls `mm.Lock(key)`. -/
  | start (s : State n) (key : String) (h : s.pcs t = .idle) :
      StepG mis t s { s with pcs := Function.update s.pcs t (.lAcq key) }
  /-- `mm.lock.Lock()` in `Lock`: acquires the free guard. -/
  | lockAcq (s : State n) (key : String) (h : s.pcs t = .lAcq key)
      (h2 : s.mm.lock = false) :
      StepG mis t s
        { s with mm := { s.mm with lock := true }
                 pcs := Function.update s.pcs t (.lBook key) }
  /-- The guarded bookkeeping of `Lock` (lookup, create if absent,
  `km.count++`). -/
  | lockBook (s : State n) (key : String) (h : s.pcs t = .lBook key) :
      StepG mis t s
        { s with mm := (lockGuarded s.mm key).2
                 pcs := Function.update s.pcs t (.lRel key (lockGuarded s.mm key).1) }
  /-- `mm.lock.Unlock()` in `Lock`: releases the guard before the inner
  lock is attempted. -/
  | lockRel (s : State n) (key : String) (km : Nat) (h : s.pcs t = .lRel key km) :
      StepG mis t s
        { s with mm := { s.mm with lock := false }
                 pcs := Function.update s.pcs t (.lInner key km) }
  /-- `km.inner.Lock()`: acquires the free inner mutex; `Lock` returns
  the `Unlocker` `km`. -/
  | lockInner (s : State n) (key : String) (km : Nat) (h : s.pcs t = .lInner key km)
      (h2 : (s.mm.recs km).inner = false) :
      StepG mis t s
        { s with
          mm := { s.mm with
                  recs := Function.update s.mm.recs km
                    { s.mm.recs km with inner := true } }
          pcs := Function.update s.pcs t (.holding key km) }
  /-- The holder calls `km.Unlock()`, entering `mm.unlock(km.key)`. -/
  | unlockCall (s : State n) (key : String) (km : Nat) (h : s.pcs t = .holding key km) :
      StepG mis t s { s with pcs := Function.update s.pcs t (.uAcq key km) }
  /-- `mm.lock.Lock()` in `unlock`: acquires the free guard. -/
  | unlockAcq (s : State n) (key : String) (km : Nat) (h : s.pcs t = .uAcq key km)
      (h2 : s.mm.lock = false) :
      StepG mis t s
        { s with mm := { s.mm with lock := true }
                 pcs := Function.update s.pcs t (.uBook key km) }
  /-- The guarded bookkeeping of `unlock` when the key is present
  (decrement, delete when the count reaches zero). -/
  | unlockBookOk (s : State n) (key : String) (km : Nat) (mm2 : MutexMap)
      (h : s.pcs t = .uBook key km) (h2 : unlockGuarded s.mm key = some mm2) :
      StepG mis t s
        { s with mm := mm2
                 pcs := Function.update s.pcs t (.uRel key km) }
  /-- The guarded bookkeeping of `unlock` when the key is absent:
  `panic("no lock for the given key")`; the deferred `mm.lock.Unlock()`
  releases the guard, the map, records and inner locks are untouched. -/
  | unlockBookPanic (s : State n) (key : String) (km : Nat)
      (h : s.pcs t = .uBook key km) (h2 : unlockGuarded s.mm key = none) :
      StepG mis t s
        { s with mm := { s.mm with lock := false }
                 pcs := Function.update s.pcs t (.panicked "no lock for the given key") }
  /-- The deferred `mm.lock.Unlock()` of `unlock`. -/
  | unlockRel (s : State n) (key : String) (km : Nat) (h : s.pcs t = .uRel key km) :
      StepG mis t s
        { s with mm := { s.mm with lock := false }
                 pcs := Function.update s.pcs t (.uInner key km) }
  /-- `km.inner.Unlock()` on a locked inner mutex. -/
  | unlockInner (s : State n) (key : String) (km : Nat) (h : s.pcs t = .uInner key km)
      (h2 : (s.mm.recs km).inner = true) :
      StepG mis t s
        { s with
          mm := { s.mm with
                  recs := Function.update s.mm.recs km
                    { s.mm.recs km with inner := false } }
          pcs := Function.update s.pcs t (.done key km) }
  /-- `km.inner.Unlock()` on an unlocked inner mutex: Go aborts with a
  fatal error (only reachable through misuse). -/
  | unlockInnerFatal (s : State n) (key : String) (km : Nat) (h : s.pcs t = .uInner key km)
      (h2 : (s.mm.recs km).inner = false) :
      StepG mis t s
        { s with pcs := Function.update s.pcs t (.panicked "sync: unlock of unlocked mutex") }
  /-- The goroutine is finished and may start a fresh `Lock` call later. -/
  | restart (s : State n) (key : String) (km : Nat) (h : s.pcs t = .done key km) :
      StepG mis t s { s with pcs := Function.update s.pcs t .idle }
  /-- Misuse (only when `mis = true`): `Unlock()` is called a second
  time on an already used handle. -/
  | reUnlock (s : State n) (key : String) (km : Nat) (hm : mis = true)
      (h : s.pcs t = .done key km) :
      StepG mis t s { s with pcs := Function.update s.pcs t (.uAcq key km) }

/-- Some goroutine steps (proper protocol when `mis = false`). -/
def StepAny {n : Nat} (mis : Bool) (s s2 : State n) : Prop :=
  ∃ t : Fin n, StepG mis t s s2

/-- The initial state: guard free, empty map, zeroed heap, all
goroutines idle. -/
def init (n : Nat) : State n :=
  { mm := { lock := false, keyToLock := fun _ => none,
            recs := fun _ => { key := "", count := 0, inner := false }, nextId := 0 }
    pcs := fun _ => .idle }

/-- States reachable under the proper protocol. -/
def Reachable {n : Nat} (s : State n) : Prop :=
  Relation.ReflTransGen (StepAny false) (init n) s

/-- States reachable when the double-unlock misuse is allowed. -/
def MReachable {n : Nat} (s : State n) : Prop :=
  Relation.ReflTransGen (StepAny true) (init n) s

/-! Equation lemmas for the two guarded sections. -/

/-- `Lock`'s guarded section when the key is present: the existing record
is returned and only its count is incremented. -/
theorem lockGuarded_present {mm : MutexMap} {key : String} {km : Nat}
    (h : mm.keyToLock key = some km) :
    lockGuarded mm key =
      (km,
        { mm with
          recs :=
            Function.update mm.recs km
              { mm.recs km with count := (mm.recs km).count + 1 } }) := by
  unfold lockGuarded
  rw [h]

/-- `Lock`'s guarded section when the key is absent: a fresh record with
count `0` is created and inserted, then its count is incremented. -/
theorem lockGuarded_absent {mm : MutexMap} {key : String}
    (h : mm.keyToLock key = none) :
    lockGuarded mm key =
      (mm.nextId,
        { mm with
          keyToLock := mapInsert mm.keyToLock key mm.nextId
          recs := Function.update mm.recs mm.nextId { key := key, count := 1, inner := false }
          nextId := mm.nextId + 1 }) := by
  unfold lockGuarded
  rw [h]
  simp only [Function.update_same, Function.update_idem]
  norm_num

/-- `unlock`'s guarded section when the key is absent: panic. -/
theorem unlockGuarded_absent {mm : MutexMap} {key : String}
    (h : mm.keyToLock key = none) : unlockGuarded mm key = none := by
  unfold unlockGuarded
  rw [h]

/-- `unlock`'s guarded section when the key is present and the decrement
does not reach zero: only the count changes. -/
theorem unlockGuarded_keep {mm : MutexMap} {key : String} {km : Nat}
    (h : mm.keyToLock key = some km) (h2 : (mm.recs km).count - 1 ≠ 0) :
    unlockGuarded mm key =
      some
        { mm with
          recs :=
            Function.update mm.recs km
              { mm.recs km with count := (mm.recs km).count - 1 } } := by
  unfold unlockGuarded
  rw [h]
  simp only [Function.update_same]
  rw [if_neg h2]

/-- `unlock`'s guarded section when the decrement reaches zero: the
record is removed from the map in the same guarded section. -/
theorem unlockGuarded_del {mm : MutexMap} {key : String} {km : Nat}
    (h : mm.keyToLock key = some km) (h2 : (mm.recs km).count - 1 = 0) :
    unlockGuarded mm key =
      some
        { mm with
          recs :=
            Function.update mm.recs km
              { mm.recs km with count := (mm.recs km).count - 1 }
          keyToLock := mapDelete mm.keyToLock key } := by
  unfold unlockGuarded
  rw [h]
  simp only [Function.update_same]
  rw [if_pos h2]

@[simp] theorem mapInsert_self (m : String → Option Nat) (key : String) (km : Nat) :
    mapInsert m key km key = some km := by simp [mapInsert]

theorem mapInsert_other {k key : String} (m : String → Option Nat) (km : Nat)
    (h : k ≠ key) : mapInsert m key km k = m k := by simp [mapInsert, h]

@[simp] theorem mapDelete_self (m : String → Option Nat) (key : String) :
    mapDelete m key key = none := by simp [mapDelete]

theorem mapDelete_other {k key : String} (m : String → Option Nat)
    (h : k ≠ key) : mapDelete m key k = m k := by simp [mapDelete, h]

/-! Counting goroutines whose program counter satisfies a predicate,
and how one goroutine's step changes the count. -/

/-- The set of goroutines whose program counter satisfies `Q`. -/
def pcSet {n : Nat} (pcs : Fin n → PC) (Q : PC → Bool) : Finset (Fin n) :=
  Finset.univ.filter fun u => Q (pcs u) = true

theorem pcSet_update_congr {n : Nat} (pcs : Fin n → PC) (t : Fin n) (p : PC)
    (Q : PC → Bool) (h : Q p = Q (pcs t)) :
    pcSet (Function.update pcs t p) Q = pcSet pcs Q := by
  unfold pcSet
  ext u
  simp only [Finset.mem_filter, Finset.mem_univ, true_and]
  by_cases hu : u = t
  · subst hu
    rw [Function.update_same, h]
  · rw [Function.update_noteq hu]

theorem pcSet_update_enter {n : Nat} (pcs : Fin n → PC) (t : Fin n) (p : PC)
    (Q : PC → Bool) (h1 : Q (pcs t) = false) (h2 : Q p = true) :
    pcSet (Function.update pcs t p) Q = insert t (pcSet pcs Q) := by
  unfold pcSet
  ext u
  simp only [Finset.mem_filter, Finset.mem_univ, true_and, Finset.mem_insert]
  by_cases hu : u = t
  · subst hu
    simp [Function.update_same, h2]
  · simp [Function.update_noteq hu, hu]

theorem pcSet_update_exit {n : Nat} (pcs : Fin n → PC) (t : Fin n) (p : PC)
    (Q : PC → Bool) (h1 : Q (pcs t) = true) (h2 : Q p = false) :
    pcSet pcs Q = insert t (pcSet (Function.update pcs t p) Q) := by
  unfold pcSet
  ext u
  simp only [Finset.mem_filter, Finset.mem_univ, true_and, Finset.mem_insert]
  by_cases hu : u = t
  · subst hu
    simp [Function.update_same, h1]
  · simp [Function.update_noteq hu, hu]

theorem mem_pcSet {n : Nat} {pcs : Fin n → PC} {Q : PC → Bool} {t : Fin n} :
    t ∈ pcSet pcs Q ↔ Q (pcs t) = true := by
  simp [pcSet]

theorem card_update_enter {n : Nat} (pcs : Fin n → PC) (t : Fin n) (p : PC)
    (Q : PC → Bool) (h1 : Q (pcs t) = false) (h2 : Q p = true) :
    (pcSet (Function.update pcs t p) Q).card = (pcSet pcs Q).card + 1 := by
  rw [pcSet_update_enter pcs t p Q h1 h2]
  rw [Finset.card_insert_of_not_mem (by simp [mem_pcSet, h1])]

theorem card_update_exit {n : Nat} (pcs : Fin n → PC) (t : Fin n) (p : PC)
    (Q : PC → Bool) (h1 : Q (pcs t) = true) (h2 : Q p = false) :
    (pcSet pcs Q).card = (pcSet (Function.update pcs t p) Q).card + 1 := by
  rw [pcSet_update_exit pcs t p Q h1 h2]
  rw [Finset.card_insert_of_not_mem]
  simp [mem_pcSet, Function.update_same, h2]

/-- Number of goroutines currently counted in `count` of record `r` of
key `k`. -/
def contributors {n : Nat} (s : State n) (k : String) (r : Nat) : Finset (Fin n) :=
  pcSet s.pcs fun p => contrib p k r

/-- The inductive invariant of the proper protocol. -/
structure Inv {n : Nat} (s : State n) : Prop where
  /-- A goroutine inside a guarded section implies the guard is held. -/
  guardHeld : ∀ t : Fin n, guardPC (s.pcs t) = true → s.mm.lock = true
  /-- At most one goroutine is inside a guarded section. -/
  guardUniq : ∀ t u : Fin n, guardPC (s.pcs t) = true → guardPC (s.pcs u) = true → t = u
  /-- The count of a mapped record is exactly the number of goroutines
  that incremented it and have not yet decremented it. -/
  countEq : ∀ k r, s.mm.keyToLock k = some r →
      (s.mm.recs r).count = ((contributors s k r).card : Int)
  /-- A mapped record has positive count. -/
  countPos : ∀ k r, s.mm.keyToLock k = some r → 1 ≤ (s.mm.recs r).count
  /-- A counted record is (still) in the map under its key. -/
  mapRec : ∀ (t : Fin n) k r, contrib (s.pcs t) k r = true → s.mm.keyToLock k = some r
  /-- A mapped record carries its key and is allocated. -/
  keyCons : ∀ k r, s.mm.keyToLock k = some r →
      (s.mm.recs r).key = k ∧ r < s.mm.nextId
  /-- A record mentioned by a goroutine carries that goroutine's key and
  is allocated. -/
  pcKey : ∀ (t : Fin n) k r, usesRec (s.pcs t) k r = true →
      (s.mm.recs r).key = k ∧ r < s.mm.nextId
  /-- At most one goroutine holds the inner mutex of a record. -/
  holdsUniq : ∀ (t u : Fin n) r, holdsLock (s.pcs t) r = true →
      holdsLock (s.pcs u) r = true → t = u
  /-- A held inner mutex is locked. -/
  holdsInner : ∀ (t : Fin n) r, holdsLock (s.pcs t) r = true →
      (s.mm.recs r).inner = true
  /-- A locked inner mutex has a holder. -/
  innerHolds : ∀ r, (s.mm.recs r).inner = true →
      ∃ t : Fin n, holdsLock (s.pcs t) r = true
  /-- Unallocated records are zeroed. -/
  alloc : ∀ r, s.mm.nextId ≤ r → (s.mm.recs r).count = 0 ∧ (s.mm.recs r).inner = false
  /-- Unmapped records have count zero. -/
  countZero : ∀ r, (∀ k, s.mm.keyToLock k ≠ some r) → (s.mm.recs r).count = 0

/-! Generic preservation lemmas for steps that only move a program
counter (and possibly the guard bit) without touching the registry
bookkeeping. -/

theorem update_pull {n : Nat} {pcs : Fin n → PC} {t : Fin n} {p : PC} (B : PC → Bool)
    (h : B p = B (pcs t)) (u : Fin n) :
    B (Function.update pcs t p u) = B (pcs u) := by
  by_cases hut : u = t
  · subst hut
    rw [Function.update_same, h]
  · rw [Function.update_noteq hut]

theorem update_pull_imp {n : Nat} {pcs : Fin n → PC} {t : Fin n} {p : PC} (B : PC → Bool)
    (h : B p = true → B (pcs t) = true) {u : Fin n}
    (hu : B (Function.update pcs t p u) = true) : B (pcs u) = true := by
  by_cases hut : u = t
  · subst hut
    rw [Function.update_same] at hu
    exact h hu
  · rw [Function.update_noteq hut] at hu
    exact hu

/-- A step that moves goroutine `t` to a program point with the same
count contribution, inner-lock possession and record mentions, leaving
the registry bookkeeping untouched and setting the guard bit to `b`,
preserves the invariant provided the two guard conjuncts do. -/
theorem inv_book_only {n : Nat} {s : State n} (hs : Inv s) (t : Fin n) (p : PC) (b : Bool)
    (hc : ∀ k r, contrib p k r = contrib (s.pcs t) k r)
    (hh : ∀ r, holdsLock p r = holdsLock (s.pcs t) r)
    (hu : ∀ k r, usesRec p k r = true → usesRec (s.pcs t) k r = true)
    (hgH : ∀ u : Fin n, guardPC (Function.update s.pcs t p u) = true → b = true)
    (hgU : ∀ u v : Fin n, guardPC (Function.update s.pcs t p u) = true →
      guardPC (Function.update s.pcs t p v) = true → u = v) :
    Inv { s with mm := { s.mm with lock := b }, pcs := Function.update s.pcs t p } := by
  constructor
  · exact hgH
  · exact hgU
  · intro k r hk
    show (s.mm.recs r).count =
      ((pcSet (Function.update s.pcs t p) fun q => contrib q k r).card : Int)
    rw [pcSet_update_congr s.pcs t p _ (hc k r)]
    exact hs.countEq k r hk
  · intro k r hk
    exact hs.countPos k r hk
  · intro u k r hcon
    rw [update_pull (fun q => contrib q k r) (hc k r)] at hcon
    exact hs.mapRec u k r hcon
  · intro k r hk
    exact hs.keyCons k r hk
  · intro u k r hur
    exact hs.pcKey u k r (update_pull_imp (fun q => usesRec q k r) (hu k r) hur)
  · intro u v r h1 h2
    rw [update_pull (fun q => holdsLock q r) (hh r)] at h1 h2
    exact hs.holdsUniq u v r h1 h2
  · intro u r h1
    rw [update_pull (fun q => holdsLock q r) (hh r)] at h1
    exact hs.holdsInner u r h1
  · intro r hr
    obtain ⟨u, hu2⟩ := hs.innerHolds r hr
    refine ⟨u, ?_⟩
    rw [update_pull (fun q => holdsLock q r) (hh r)]
    exact hu2
  · intro r hr
    exact hs.alloc r hr
  · intro r hr
    exact hs.countZero r hr

/-- Specialisation: the guard bit is unchanged. -/
theorem inv_pc_only {n : Nat} {s : State n} (hs : Inv s) (t : Fin n) (p : PC)
    (hc : ∀ k r, contrib p k r = contrib (s.pcs t) k r)
    (hh : ∀ r, holdsLock p r = holdsLock (s.pcs t) r)
    (hu : ∀ k r, usesRec p k r = true → usesRec (s.pcs t) k r = true)
    (hg : guardPC p = guardPC (s.pcs t)) :
    Inv { s with pcs := Function.update s.pcs t p } := by
  have h := inv_book_only hs t p s.mm.lock hc hh hu
    (fun u hu2 => hs.guardHeld u (by rwa [update_pull guardPC hg u] at hu2))
    (fun u v hu2 hv2 => by
      rw [update_pull guardPC hg u] at hu2
      rw [update_pull guardPC hg v] at hv2
      exact hs.guardUniq u v hu2 hv2)
  exact h

/-- Acquiring the free guard. -/
theorem inv_guard_acq {n : Nat} {s : State n} (hs : Inv s) (t : Fin n) (p : PC)
    (hl : s.mm.lock = false)
    (hc : ∀ k r, contrib p k r = contrib (s.pcs t) k r)
    (hh : ∀ r, holdsLock p r = holdsLock (s.pcs t) r)
    (hu : ∀ k r, usesRec p k r = true → usesRec (s.pcs t) k r = true) :
    Inv { s with mm := { s.mm with lock := true }, pcs := Function.update s.pcs t p } := by
  apply inv_book_only hs t p true hc hh hu
  · intro u _
    rfl
  · intro u v hu2 hv2
    have hx : ∀ w : Fin n, guardPC (Function.update s.pcs t p w) = true → w = t := by
      intro w hw
      by_cases hwt : w = t
      · exact hwt
      · rw [Function.update_noteq hwt] at hw
        have := hs.guardHeld w hw
        rw [hl] at this
        exact absurd this (by simp)
    rw [hx u hu2, hx v hv2]

/-- Releasing the guard from inside a guarded section. -/
theorem inv_guard_rel {n : Nat} {s : State n} (hs : Inv s) (t : Fin n) (p : PC)
    (hgt : guardPC (s.pcs t) = true) (hgp : guardPC p = false)
    (hc : ∀ k r, contrib p k r = contrib (s.pcs t) k r)
    (hh : ∀ r, holdsLock p r = holdsLock (s.pcs t) r)
    (hu : ∀ k r, usesRec p k r = true → usesRec (s.pcs t) k r = true) :
    Inv { s with mm := { s.mm with lock := false }, pcs := Function.update s.pcs t p } := by
  have hnone : ∀ w : Fin n, guardPC (Function.update s.pcs t p w) = true → False := by
    intro w hw
    by_cases hwt : w = t
    · subst hwt
      rw [Function.update_same, hgp] at hw
      exact absurd hw (by simp)
    · rw [Function.update_noteq hwt] at hw
      exact hwt (hs.guardUniq w t hw hgt)
  apply inv_book_only hs t p false hc hh hu
  · intro u hu2
    exact (hnone u hu2).elim
  · intro u v hu2 hv2
    exact (hnone u hu2).elim

/-- A goroutine holding the inner mutex mentions its record. -/
theorem holdsLock_usesRec {p : PC} {r : Nat} (h : holdsLock p r = true) :
    ∃ k, usesRec p k r = true := by
  cases p <;>
    first
      | (simp [holdsLock] at h
         done)
      | (rename_i k2 km
         exact ⟨k2, by simp [holdsLock] at h; simp [usesRec, h]⟩)

/-- A goroutine counted in a record's count mentions its record. -/
theorem contrib_usesRec {p : PC} {k : String} {r : Nat} (h : contrib p k r = true) :
    usesRec p k r = true := by
  cases p <;> simp [contrib] at h <;> simp [usesRec, h]

/-- Preservation for `km.inner.Lock()` (a blocked-or-ready waiter
acquires the free inner mutex and enters its critical section). -/
theorem inv_lockInner {n : Nat} {s : State n} (hs : Inv s) (t : Fin n)
    (key : String) (km : Nat)
    (h : s.pcs t = .lInner key km) (hfree : (s.mm.recs km).inner = false) :
    Inv { s with
          mm := { s.mm with
                  recs := Function.update s.mm.recs km
                    { s.mm.recs km with inner := true } }
          pcs := Function.update s.pcs t (.holding key km) } := by
  have hkm := hs.pcKey t key km (by rw [h]; simp [usesRec])
  have hcnt : ∀ r, ((Function.update s.mm.recs km
      { s.mm.recs km with inner := true }) r).count = (s.mm.recs r).count := by
    intro r
    by_cases hr : r = km
    · subst hr
      rw [Function.update_same]
    · rw [Function.update_noteq hr]
  have hkey : ∀ r, ((Function.update s.mm.recs km
      { s.mm.recs km with inner := true }) r).key = (s.mm.recs r).key := by
    intro r
    by_cases hr : r = km
    · subst hr
      rw [Function.update_same]
    · rw [Function.update_noteq hr]
  have hcpull : ∀ k r, contrib (PC.holding key km) k r = contrib (s.pcs t) k r := by
    intro k r
    rw [h]
    rfl
  have hupull : ∀ k r, usesRec (PC.holding key km) k r = usesRec (s.pcs t) k r := by
    intro k r
    rw [h]
    rfl
  have hstep : ∀ w : Fin n,
      holdsLock (Function.update s.pcs t (PC.holding key km) w) km = true →
      w = t ∨ holdsLock (s.pcs w) km = true := by
    intro w hw
    by_cases hwt : w = t
    · exact Or.inl hwt
    · rw [Function.update_noteq hwt] at hw
      exact Or.inr hw
  constructor
  · intro u hu2
    rw [update_pull guardPC (by rw [h]; rfl) u] at hu2
    exact hs.guardHeld u hu2
  · intro u v hu2 hv2
    rw [update_pull guardPC (by rw [h]; rfl) u] at hu2
    rw [update_pull guardPC (by rw [h]; rfl) v] at hv2
    exact hs.guardUniq u v hu2 hv2
  · intro k r hk
    show ((Function.update s.mm.recs km _) r).count =
      ((pcSet (Function.update s.pcs t (PC.holding key km)) fun q => contrib q k r).card : Int)
    rw [hcnt r, pcSet_update_congr s.pcs t _ _ (hcpull k r)]
    exact hs.countEq k r hk
  · intro k r hk
    show 1 ≤ ((Function.update s.mm.recs km _) r).count
    rw [hcnt r]
    exact hs.countPos k r hk
  · intro u k r hcon
    rw [update_pull (fun q => contrib q k r) (hcpull k r)] at hcon
    exact hs.mapRec u k r hcon
  · intro k r hk
    refine ⟨?_, (hs.keyCons k r hk).2⟩
    show ((Function.update s.mm.recs km _) r).key = k
    rw [hkey r]
    exact (hs.keyCons k r hk).1
  · intro u k r hur
    rw [update_pull (fun q => usesRec q k r) (hupull k r)] at hur
    refine ⟨?_, (hs.pcKey u k r hur).2⟩
    show ((Function.update s.mm.recs km _) r).key = k
    rw [hkey r]
    exact (hs.pcKey u k r hur).1
  · intro u v r h1 h2
    by_cases hr : km = r
    · subst hr
      have hget : ∀ w : Fin n,
          holdsLock (Function.update s.pcs t (PC.holding key km) w) km = true → w = t := by
        intro w hw
        rcases hstep w hw with hwt | hold
        · exact hwt
        · exact absurd (hs.holdsInner w km hold) (by rw [hfree]; simp)
      rw [hget u h1, hget v h2]
    · have hpull : holdsLock (PC.holding key km) r = holdsLock (s.pcs t) r := by
        rw [h]
        simp [holdsLock, hr]
      rw [update_pull (fun q => holdsLock q r) hpull] at h1 h2
      exact hs.holdsUniq u v r h1 h2
  · intro u r h1
    by_cases hr : km = r
    · subst hr
      show ((Function.update s.mm.recs km _) km).inner = true
      rw [Function.update_same]
    · have hpull : holdsLock (PC.holding key km) r = holdsLock (s.pcs t) r := by
        rw [h]
        simp [holdsLock, hr]
      rw [update_pull (fun q => holdsLock q r) hpull] at h1
      show ((Function.update s.mm.recs km _) r).inner = true
      rw [Function.update_noteq (Ne.symm hr)]
      exact hs.holdsInner u r h1
  · intro r hr2
    by_cases hr : km = r
    · subst hr
      refine ⟨t, ?_⟩
      show holdsLock (Function.update s.pcs t (PC.holding key km) t) km = true
      rw [Function.update_same]
      simp [holdsLock]
    · have hr3 : (s.mm.recs r).inner = true := by
        have hx : ((Function.update s.mm.recs km
            { s.mm.recs km with inner := true }) r).inner = true := hr2
        rwa [Function.update_noteq (Ne.symm hr)] at hx
      obtain ⟨u, hu2⟩ := hs.innerHolds r hr3
      have hut : u ≠ t := by
        intro he
        subst he
        rw [h] at hu2
        simp [holdsLock] at hu2
      refine ⟨u, ?_⟩
      show holdsLock (Function.update s.pcs t (PC.holding key km) u) r = true
      rw [Function.update_noteq hut]
      exact hu2
  · intro r hr
    have hrn : s.mm.nextId ≤ r := hr
    have hrk : r ≠ km := by
      intro he
      subst he
      have hx := hkm.2
      omega
    constructor
    · show ((Function.update s.mm.recs km _) r).count = 0
      rw [Function.update_noteq hrk]
      exact (hs.alloc r hr).1
    · show ((Function.update s.mm.recs km _) r).inner = false
      rw [Function.update_noteq hrk]
      exact (hs.alloc r hr).2
  · intro r hr
    show ((Function.update s.mm.recs km _) r).count = 0
    rw [hcnt r]
    exact hs.countZero r hr

/-- Preservation for `km.inner.Unlock()` (the holder releases the inner
mutex after the guarded bookkeeping is done). -/
theorem inv_unlockInner {n : Nat} {s : State n} (hs : Inv s) (t : Fin n)
    (key : String) (km : Nat)
    (h : s.pcs t = .uInner key km) (hheld : (s.mm.recs km).inner = true) :
    Inv { s with
          mm := { s.mm with
                  recs := Function.update s.mm.recs km
                    { s.mm.recs km with inner := false } }
          pcs := Function.update s.pcs t (.done key km) } := by
  have hkm := hs.pcKey t key km (by rw [h]; simp [usesRec])
  have hth : holdsLock (s.pcs t) km = true := by
    rw [h]
    simp [holdsLock]
  have hcnt : ∀ r, ((Function.update s.mm.recs km
      { s.mm.recs km with inner := false }) r).count = (s.mm.recs r).count := by
    intro r
    by_cases hr : r = km
    · subst hr
      rw [Function.update_same]
    · rw [Function.update_noteq hr]
  have hkey : ∀ r, ((Function.update s.mm.recs km
      { s.mm.recs km with inner := false }) r).key = (s.mm.recs r).key := by
    intro r
    by_cases hr : r = km
    · subst hr
      rw [Function.update_same]
    · rw [Function.update_noteq hr]
  have hcpull : ∀ k r, contrib (PC.done key km) k r = contrib (s.pcs t) k r := by
    intro k r
    rw [h]
    rfl
  have hupull : ∀ k r, usesRec (PC.done key km) k r = usesRec (s.pcs t) k r := by
    intro k r
    rw [h]
    rfl
  have hhimp : ∀ r, holdsLock (PC.done key km) r = true → holdsLock (s.pcs t) r = true := by
    intro r hx
    simp [holdsLock] at hx
  constructor
  · intro u hu2
    rw [update_pull guardPC (by rw [h]; rfl) u] at hu2
    exact hs.guardHeld u hu2
  · intro u v hu2 hv2
    rw [update_pull guardPC (by rw [h]; rfl) u] at hu2
    rw [update_pull guardPC (by rw [h]; rfl) v] at hv2
    exact hs.guardUniq u v hu2 hv2
  · intro k r hk
    show ((Function.update s.mm.recs km _) r).count =
      ((pcSet (Function.update s.pcs t (PC.done key km)) fun q => contrib q k r).card : Int)
    rw [hcnt r, pcSet_update_congr s.pcs t _ _ (hcpull k r)]
    exact hs.countEq k r hk
  · intro k r hk
    show 1 ≤ ((Function.update s.mm.recs km _) r).count
    rw [hcnt r]
    exact hs.countPos k r hk
  · intro u k r hcon
    rw [update_pull (fun q => contrib q k r) (hcpull k r)] at hcon
    exact hs.mapRec u k r hcon
  · intro k r hk
    refine ⟨?_, (hs.keyCons k r hk).2⟩
    show ((Function.update s.mm.recs km _) r).key = k
    rw [hkey r]
    exact (hs.keyCons k r hk).1
  · intro u k r hur
    rw [update_pull (fun q => usesRec q k r) (hupull k r)] at hur
    refine ⟨?_, (hs.pcKey u k r hur).2⟩
    show ((Function.update s.mm.recs km _) r).key = k
    rw [hkey r]
    exact (hs.pcKey u k r hur).1
  · intro u v r h1 h2
    have h1b := update_pull_imp (fun q => holdsLock q r) (hhimp r) h1
    have h2b := update_pull_imp (fun q => holdsLock q r) (hhimp r) h2
    exact hs.holdsUniq u v r h1b h2b
  · intro u r h1
    have hut : u ≠ t := by
      intro he
      subst he
      show False
      have hx : holdsLock (Function.update s.pcs u (PC.done key km) u) r = true := h1
      rw [Function.update_same] at hx
      simp [holdsLock] at hx
    have h1b := update_pull_imp (fun q => holdsLock q r) (hhimp r) h1
    have hrkm : r ≠ km := by
      intro he
      subst he
      exact hut (hs.holdsUniq u t r h1b hth)
    show ((Function.update s.mm.recs km _) r).inner = true
    rw [Function.update_noteq hrkm]
    exact hs.holdsInner u r h1b
  · intro r hr
    have hrkm : r ≠ km := by
      intro he
      subst he
      have hx : ((Function.update s.mm.recs r
          { s.mm.recs r with inner := false }) r).inner = true := hr
      rw [Function.update_same] at hx
      simp at hx
    have hr2 : (s.mm.recs r).inner = true := by
      have hx : ((Function.update s.mm.recs km
          { s.mm.recs km with inner := false }) r).inner = true := hr
      rwa [Function.update_noteq hrkm] at hx
    obtain ⟨u, hu2⟩ := hs.innerHolds r hr2
    have hut : u ≠ t := by
      intro he
      subst he
      rw [h] at hu2
      simp [holdsLock] at hu2
      exact hrkm hu2.symm
    refine ⟨u, ?_⟩
    show holdsLock (Function.update s.pcs t (PC.done key km) u) r = true
    rw [Function.update_noteq hut]
    exact hu2
  · intro r hr
    have hrn : s.mm.nextId ≤ r := hr
    have hrk : r ≠ km := by
      intro he
      subst he
      have hx := hkm.2
      omega
    constructor
    · show ((Function.update s.mm.recs km _) r).count = 0
      rw [Function.update_noteq hrk]
      exact (hs.alloc r hr).1
    · show ((Function.update s.mm.recs km _) r).inner = false
      rw [Function.update_noteq hrk]
      exact (hs.alloc r hr).2
  · intro r hr
    show ((Function.update s.mm.recs km _) r).count = 0
    rw [hcnt r]
    exact hs.countZero r hr

/-! Record updates that only change the count leave key and inner alone. -/

theorem update_count_key (R : Nat → KeyMutex) (km : Nat) (c : Int) (r : Nat) :
    ((Function.update R km { R km with count := c }) r).key = (R r).key := by
  by_cases hr : r = km
  · subst hr
    rw [Function.update_same]
  · rw [Function.update_noteq hr]

theorem update_count_inner (R : Nat → KeyMutex) (km : Nat) (c : Int) (r : Nat) :
    ((Function.update R km { R km with count := c }) r).inner = (R r).inner := by
  by_cases hr : r = km
  · subst hr
    rw [Function.update_same]
  · rw [Function.update_noteq hr]

theorem update_count_self (R : Nat → KeyMutex) (km : Nat) (c : Int) :
    ((Function.update R km { R km with count := c }) km).count = c := by
  rw [Function.update_same]

theorem update_count_other (R : Nat → KeyMutex) (km : Nat) (c : Int) {r : Nat}
    (hr : r ≠ km) :
    ((Function.update R km { R km with count := c }) r).count = (R r).count := by
  rw [Function.update_noteq hr]

/-- Preservation for the guarded bookkeeping of `Lock` when the key is
already present: the existing record's count is incremented. -/
theorem inv_lockBook_present {n : Nat} {s : State n} (hs : Inv s) (t : Fin n)
    (key : String) (km0 : Nat)
    (h : s.pcs t = .lBook key) (hmk : s.mm.keyToLock key = some km0) :
    Inv { s with
          mm := { s.mm with
                  recs := Function.update s.mm.recs km0
                    { s.mm.recs km0 with count := (s.mm.recs km0).count + 1 } }
          pcs := Function.update s.pcs t (.lRel key km0) } := by
  have hkc := hs.keyCons key km0 hmk
  have huk : ∀ k, s.mm.keyToLock k = some km0 → k = key := by
    intro k hk
    have h1 := (hs.keyCons k km0 hk).1
    rw [hkc.1] at h1
    exact h1.symm
  have hhpull : ∀ r, holdsLock (PC.lRel key km0) r = holdsLock (s.pcs t) r := by
    intro r
    rw [h]
    rfl
  have hbfalse : ∀ (k : String) (r : Nat), ¬(k = key ∧ r = km0) →
      (key == k && km0 == r) = false := by
    intro k r hne
    by_cases hk : k = key
    · by_cases hr : r = km0
      · exact absurd ⟨hk, hr⟩ hne
      · have hx : (km0 == r) = false := by
          simp only [beq_eq_false_iff_ne, ne_eq]
          exact fun he => hr he.symm
        rw [hx, Bool.and_false]
    · have hx : (key == k) = false := by
        simp only [beq_eq_false_iff_ne, ne_eq]
        exact fun he => hk he.symm
      rw [hx, Bool.false_and]
  have hupull : ∀ k r, ¬(k = key ∧ r = km0) →
      usesRec (PC.lRel key km0) k r = usesRec (s.pcs t) k r := by
    intro k r hne
    rw [h]
    show (key == k && km0 == r) = false
    exact hbfalse k r hne
  have hcpull : ∀ k r, ¬(k = key ∧ r = km0) →
      contrib (PC.lRel key km0) k r = contrib (s.pcs t) k r := by
    intro k r hne
    rw [h]
    show (key == k && km0 == r) = false
    exact hbfalse k r hne
  constructor
  · intro u hu2
    rw [update_pull guardPC (by rw [h]; rfl) u] at hu2
    exact hs.guardHeld u hu2
  · intro u v hu2 hv2
    rw [update_pull guardPC (by rw [h]; rfl) u] at hu2
    rw [update_pull guardPC (by rw [h]; rfl) v] at hv2
    exact hs.guardUniq u v hu2 hv2
  · intro k r hk
    have hk2 : s.mm.keyToLock k = some r := hk
    by_cases hr : km0 = r
    · rw [← hr] at hk2
      have hkk : k = key := huk k hk2
      rw [hkk, ← hr]
      show ((Function.update s.mm.recs km0
          { s.mm.recs km0 with count := (s.mm.recs km0).count + 1 }) km0).count =
        ((pcSet (Function.update s.pcs t (PC.lRel key km0))
          fun q => contrib q key km0).card : Int)
      rw [update_count_self]
      rw [card_update_enter s.pcs t (PC.lRel key km0) (fun q => contrib q key km0)
        (by rw [h]; rfl) (by simp [contrib])]
      have hce := hs.countEq key km0 hmk
      unfold contributors at hce
      push_cast
      omega
    · show ((Function.update s.mm.recs km0 _) r).count =
        ((pcSet (Function.update s.pcs t (PC.lRel key km0)) fun q => contrib q k r).card : Int)
      rw [update_count_other _ _ _ (fun he => hr he.symm)]
      rw [pcSet_update_congr s.pcs t _ _ (hcpull k r (fun hpair => hr hpair.2.symm))]
      exact hs.countEq k r hk2
  · intro k r hk
    have hk2 : s.mm.keyToLock k = some r := hk
    by_cases hr : km0 = r
    · rw [← hr]
      show 1 ≤ ((Function.update s.mm.recs km0
          { s.mm.recs km0 with count := (s.mm.recs km0).count + 1 }) km0).count
      rw [update_count_self]
      have := hs.countPos key km0 hmk
      omega
    · show 1 ≤ ((Function.update s.mm.recs km0 _) r).count
      rw [update_count_other _ _ _ (fun he => hr he.symm)]
      exact hs.countPos k r hk2
  · intro u k r hcon
    have hcon2 : contrib (Function.update s.pcs t (PC.lRel key km0) u) k r = true := hcon
    by_cases hut : u = t
    · rw [hut, Function.update_same] at hcon2
      simp [contrib] at hcon2
      show s.mm.keyToLock k = some r
      rw [← hcon2.1, ← hcon2.2]
      exact hmk
    · rw [Function.update_noteq hut] at hcon2
      exact hs.mapRec u k r hcon2
  · intro k r hk
    have hk2 : s.mm.keyToLock k = some r := hk
    refine ⟨?_, (hs.keyCons k r hk2).2⟩
    show ((Function.update s.mm.recs km0 _) r).key = k
    rw [update_count_key]
    exact (hs.keyCons k r hk2).1
  · intro u k r hur
    have hur2 : usesRec (Function.update s.pcs t (PC.lRel key km0) u) k r = true := hur
    by_cases hut : u = t
    · rw [hut, Function.update_same] at hur2
      simp [usesRec] at hur2
      constructor
      · show ((Function.update s.mm.recs km0 _) r).key = k
        rw [update_count_key, ← hur2.2, hkc.1]
        exact hur2.1
      · rw [← hur2.2]
        exact hkc.2
    · rw [Function.update_noteq hut] at hur2
      refine ⟨?_, (hs.pcKey u k r hur2).2⟩
      show ((Function.update s.mm.recs km0 _) r).key = k
      rw [update_count_key]
      exact (hs.pcKey u k r hur2).1
  · intro u v r h1 h2
    rw [update_pull (fun q => holdsLock q r) (hhpull r)] at h1 h2
    exact hs.holdsUniq u v r h1 h2
  · intro u r h1
    rw [update_pull (fun q => holdsLock q r) (hhpull r)] at h1
    show ((Function.update s.mm.recs km0 _) r).inner = true
    rw [update_count_inner]
    exact hs.holdsInner u r h1
  · intro r hr
    have hr2 : ((Function.update s.mm.recs km0
        { s.mm.recs km0 with count := (s.mm.recs km0).count + 1 }) r).inner = true := hr
    rw [update_count_inner] at hr2
    obtain ⟨u, hu2⟩ := hs.innerHolds r hr2
    refine ⟨u, ?_⟩
    show holdsLock (Function.update s.pcs t (PC.lRel key km0) u) r = true
    rw [update_pull (fun q => holdsLock q r) (hhpull r)]
    exact hu2
  · intro r hr
    have hrn : s.mm.nextId ≤ r := hr
    have hrk : r ≠ km0 := by
      intro he
      subst he
      have hx := hkc.2
      omega
    constructor
    · show ((Function.update s.mm.recs km0 _) r).count = 0
      rw [update_count_other _ _ _ hrk]
      exact (hs.alloc r hrn).1
    · show ((Function.update s.mm.recs km0 _) r).inner = false
      rw [update_count_inner]
      exact (hs.alloc r hrn).2
  · intro r hrz
    have hrz2 : ∀ k, s.mm.keyToLock k ≠ some r := hrz
    by_cases hr : km0 = r
    · exact absurd (hr ▸ hmk) (hrz2 key)
    · show ((Function.update s.mm.recs km0 _) r).count = 0
      rw [update_count_other _ _ _ (fun he => hr he.symm)]
      exact hs.countZero r hrz2

/-- Preservation for the guarded bookkeeping of `Lock` when the key is
absent: a fresh record with count `0` is created and inserted and its
count incremented. -/
theorem inv_lockBook_absent {n : Nat} {s : State n} (hs : Inv s) (t : Fin n)
    (key : String)
    (h : s.pcs t = .lBook key) (hmk : s.mm.keyToLock key = none) :
    Inv { s with
          mm := { s.mm with
                  keyToLock := mapInsert s.mm.keyToLock key s.mm.nextId
                  recs := Function.update s.mm.recs s.mm.nextId
                    { key := key, count := 1, inner := false }
                  nextId := s.mm.nextId + 1 }
          pcs := Function.update s.pcs t (.lRel key s.mm.nextId) } := by
  have hfresh : ∀ (u : Fin n) k, usesRec (s.pcs u) k s.mm.nextId = false := by
    intro u k
    cases hx : usesRec (s.pcs u) k s.mm.nextId with
    | false => rfl
    | true => exact absurd (hs.pcKey u k s.mm.nextId hx).2 (by omega)
  have hfreshc : ∀ (u : Fin n) k, contrib (s.pcs u) k s.mm.nextId = false := by
    intro u k
    cases hx : contrib (s.pcs u) k s.mm.nextId with
    | false => rfl
    | true =>
      rw [← hfresh u k]
      exact (contrib_usesRec hx).symm ▸ rfl
  have hfreshh : ∀ u : Fin n, holdsLock (s.pcs u) s.mm.nextId = false := by
    intro u
    cases hx : holdsLock (s.pcs u) s.mm.nextId with
    | false => rfl
    | true =>
      obtain ⟨k, hk⟩ := holdsLock_usesRec hx
      rw [hfresh u k] at hk
      exact absurd hk (by simp)
  have hfreshm : ∀ k, s.mm.keyToLock k ≠ some s.mm.nextId := by
    intro k hk
    exact absurd (hs.keyCons k s.mm.nextId hk).2 (by omega)
  have hempty : (pcSet s.pcs fun q => contrib q key s.mm.nextId).card = 0 := by
    rw [Finset.card_eq_zero, Finset.eq_empty_iff_forall_not_mem]
    intro u hu
    rw [mem_pcSet, hfreshc u key] at hu
    exact absurd hu (by simp)
  have hhpull : ∀ r, holdsLock (PC.lRel key s.mm.nextId) r = holdsLock (s.pcs t) r := by
    intro r
    rw [h]
    rfl
  have hbfalse : ∀ (k : String) (r : Nat), ¬(k = key ∧ r = s.mm.nextId) →
      (key == k && s.mm.nextId == r) = false := by
    intro k r hne
    by_cases hk : k = key
    · by_cases hr : r = s.mm.nextId
      · exact absurd ⟨hk, hr⟩ hne
      · have hx : (s.mm.nextId == r) = false := by
          simp only [beq_eq_false_iff_ne, ne_eq]
          exact fun he => hr he.symm
        rw [hx, Bool.and_false]
    · have hx : (key == k) = false := by
        simp only [beq_eq_false_iff_ne, ne_eq]
        exact fun he => hk he.symm
      rw [hx, Bool.false_and]
  have hupull : ∀ k r, ¬(k = key ∧ r = s.mm.nextId) →
      usesRec (PC.lRel key s.mm.nextId) k r = usesRec (s.pcs t) k r := by
    intro k r hne
    rw [h]
    show (key == k && s.mm.nextId == r) = false
    exact hbfalse k r hne
  have hcpull : ∀ k r, ¬(k = key ∧ r = s.mm.nextId) →
      contrib (PC.lRel key s.mm.nextId) k r = contrib (s.pcs t) k r := by
    intro k r hne
    rw [h]
    show (key == k && s.mm.nextId == r) = false
    exact hbfalse k r hne
  constructor
  · intro u hu2
    rw [update_pull guardPC (by rw [h]; rfl) u] at hu2
    exact hs.guardHeld u hu2
  · intro u v hu2 hv2
    rw [update_pull guardPC (by rw [h]; rfl) u] at hu2
    rw [update_pull guardPC (by rw [h]; rfl) v] at hv2
    exact hs.guardUniq u v hu2 hv2
  · intro k r hk
    have hk2 : mapInsert s.mm.keyToLock key s.mm.nextId k = some r := hk
    by_cases hkk : k = key
    · rw [hkk, mapInsert_self] at hk2
      injection hk2 with hr

      rw [hkk, ← hr]
      show ((Function.update s.mm.recs s.mm.nextId
          { key := key, count := 1, inner := false }) s.mm.nextId).count =
        ((pcSet (Function.update s.pcs t (PC.lRel key s.mm.nextId))
          fun q => contrib q key s.mm.nextId).card : Int)
      rw [Function.update_same]
      rw [card_update_enter s.pcs t (PC.lRel key s.mm.nextId)
        (fun q => contrib q key s.mm.nextId) (hfreshc t key) (by simp [contrib])]
      rw [hempty]
      norm_num
    · rw [mapInsert_other _ _ hkk] at hk2
      have hrN : r ≠ s.mm.nextId := fun he => hfreshm k (he ▸ hk2)
      show ((Function.update s.mm.recs s.mm.nextId _) r).count =
        ((pcSet (Function.update s.pcs t (PC.lRel key s.mm.nextId))
          fun q => contrib q k r).card : Int)
      rw [Function.update_noteq hrN]
      rw [pcSet_update_congr s.pcs t _ _ (hcpull k r (fun hpair => hkk hpair.1))]
      exact hs.countEq k r hk2
  · intro k r hk
    have hk2 : mapInsert s.mm.keyToLock key s.mm.nextId k = some r := hk
    by_cases hkk : k = key
    · rw [hkk, mapInsert_self] at hk2
      injection hk2 with hr
      rw [← hr]
      show 1 ≤ ((Function.update s.mm.recs s.mm.nextId
          { key := key, count := 1, inner := false }) s.mm.nextId).count
      rw [Function.update_same]
    · rw [mapInsert_other _ _ hkk] at hk2
      have hrN : r ≠ s.mm.nextId := fun he => hfreshm k (he ▸ hk2)
      show 1 ≤ ((Function.update s.mm.recs s.mm.nextId _) r).count
      rw [Function.update_noteq hrN]
      exact hs.countPos k r hk2
  · intro u k r hcon
    have hcon2 : contrib (Function.update s.pcs t (PC.lRel key s.mm.nextId) u) k r = true :=
      hcon
    show mapInsert s.mm.keyToLock key s.mm.nextId k = some r
    by_cases hut : u = t
    · rw [hut, Function.update_same] at hcon2
      simp [contrib] at hcon2
      rw [← hcon2.1, ← hcon2.2]
      exact mapInsert_self _ _ _
    · rw [Function.update_noteq hut] at hcon2
      have hold := hs.mapRec u k r hcon2
      have hne : k ≠ key := by
        intro he
        rw [he, hmk] at hold
        exact absurd hold (by simp)
      rw [mapInsert_other _ _ hne]
      exact hold
  · intro k r hk
    have hk2 : mapInsert s.mm.keyToLock key s.mm.nextId k = some r := hk
    by_cases hkk : k = key
    · rw [hkk, mapInsert_self] at hk2
      injection hk2 with hr
      constructor
      · show ((Function.update s.mm.recs s.mm.nextId _) r).key = k
        rw [← hr, Function.update_same, hkk]
      · rw [← hr]
        show s.mm.nextId < s.mm.nextId + 1
        omega
    · rw [mapInsert_other _ _ hkk] at hk2
      have hold := hs.keyCons k r hk2
      have hrN : r ≠ s.mm.nextId := fun he => hfreshm k (he ▸ hk2)
      constructor
      · show ((Function.update s.mm.recs s.mm.nextId _) r).key = k
        rw [Function.update_noteq hrN]
        exact hold.1
      · show r < s.mm.nextId + 1
        have := hold.2
        omega
  · intro u k r hur
    have hur2 : usesRec (Function.update s.pcs t (PC.lRel key s.mm.nextId) u) k r = true :=
      hur
    by_cases hut : u = t
    · rw [hut, Function.update_same] at hur2
      simp [usesRec] at hur2
      constructor
      · show ((Function.update s.mm.recs s.mm.nextId _) r).key = k
        rw [← hur2.2, Function.update_same, ← hur2.1]
      · rw [← hur2.2]
        show s.mm.nextId < s.mm.nextId + 1
        omega
    · rw [Function.update_noteq hut] at hur2
      have hold := hs.pcKey u k r hur2
      have hrN : r ≠ s.mm.nextId := by
        intro he
        rw [he, hfresh u k] at hur2
        exact absurd hur2 (by simp)
      constructor
      · show ((Function.update s.mm.recs s.mm.nextId _) r).key = k
        rw [Function.update_noteq hrN]
        exact hold.1
      · show r < s.mm.nextId + 1
        have := hold.2
        omega
  · intro u v r h1 h2
    rw [update_pull (fun q => holdsLock q r) (hhpull r)] at h1 h2
    exact hs.holdsUniq u v r h1 h2
  · intro u r h1
    rw [update_pull (fun q => holdsLock q r) (hhpull r)] at h1
    have hrN : r ≠ s.mm.nextId := by
      intro he
      rw [he, hfreshh u] at h1
      exact absurd h1 (by simp)
    show ((Function.update s.mm.recs s.mm.nextId _) r).inner = true
    rw [Function.update_noteq hrN]
    exact hs.holdsInner u r h1
  · intro r hr
    have hrN : r ≠ s.mm.nextId := by
      intro he
      have hx : ((Function.update s.mm.recs s.mm.nextId
          { key := key, count := 1, inner := false }) r).inner = true := hr
      rw [he, Function.update_same] at hx
      exact absurd hx (by simp)
    have hr2 : (s.mm.recs r).inner = true := by
      have hx : ((Function.update s.mm.recs s.mm.nextId
          { key := key, count := 1, inner := false }) r).inner = true := hr
      rwa [Function.update_noteq hrN] at hx
    obtain ⟨u, hu2⟩ := hs.innerHolds r hr2
    have hut : u ≠ t := by
      intro he
      rw [he, h] at hu2
      simp [holdsLock] at hu2
    refine ⟨u, ?_⟩
    show holdsLock (Function.update s.pcs t (PC.lRel key s.mm.nextId) u) r = true
    rw [Function.update_noteq hut]
    exact hu2
  · intro r hr
    have hrn : s.mm.nextId + 1 ≤ r := hr
    have hrN : r ≠ s.mm.nextId := by omega
    have hold := hs.alloc r (by omega)
    constructor
    · show ((Function.update s.mm.recs s.mm.nextId _) r).count = 0
      rw [Function.update_noteq hrN]
      exact hold.1
    · show ((Function.update s.mm.recs s.mm.nextId _) r).inner = false
      rw [Function.update_noteq hrN]
      exact hold.2
  · intro r hrz
    have hrz2 : ∀ k, mapInsert s.mm.keyToLock key s.mm.nextId k ≠ some r := hrz
    have hrN : r ≠ s.mm.nextId := by
      intro he
      exact hrz2 key (by rw [mapInsert_self, he])
    have hold : ∀ k, s.mm.keyToLock k ≠ some r := by
      intro k
      by_cases hkk : k = key
      · rw [hkk, hmk]
        simp
      · have := hrz2 k
        rwa [mapInsert_other _ _ hkk] at this
    show ((Function.update s.mm.recs s.mm.nextId _) r).count = 0
    rw [Function.update_noteq hrN]
    exact hs.countZero r hold

/-- Preservation for the guarded bookkeeping of `unlock` when the
decrement reaches zero: the record is removed from the map. -/
theorem inv_unlockBook_del {n : Nat} {s : State n} (hs : Inv s) (t : Fin n)
    (key : String) (km : Nat)
    (h : s.pcs t = .uBook key km) (hmk : s.mm.keyToLock key = some km)
    (hc0 : (s.mm.recs km).count - 1 = 0) :
    Inv { s with
          mm := { s.mm with
                  recs := Function.update s.mm.recs km
                    { s.mm.recs km with count := (s.mm.recs km).count - 1 }
                  keyToLock := mapDelete s.mm.keyToLock key }
          pcs := Function.update s.pcs t (.uRel key km) } := by
  have hkc := hs.keyCons key km hmk
  have hct : contrib (s.pcs t) key km = true := by
    rw [h]
    simp [contrib]
  have hce := hs.countEq key km hmk
  unfold contributors at hce
  have hhpull : ∀ r, holdsLock (PC.uRel key km) r = holdsLock (s.pcs t) r := by
    intro r
    rw [h]
    rfl
  have hupull : ∀ k r, usesRec (PC.uRel key km) k r = usesRec (s.pcs t) k r := by
    intro k r
    rw [h]
    rfl
  have hbf : ∀ (k : String) (r : Nat), ¬(k = key ∧ r = km) →
      (key == k && km == r) = false := by
    intro k r hne
    by_cases hk : k = key
    · by_cases hr : r = km
      · exact absurd ⟨hk, hr⟩ hne
      · have hx : (km == r) = false := by
          simp only [beq_eq_false_iff_ne, ne_eq]
          exact fun he => hr he.symm
        rw [hx, Bool.and_false]
    · have hx : (key == k) = false := by
        simp only [beq_eq_false_iff_ne, ne_eq]
        exact fun he => hk he.symm
      rw [hx, Bool.false_and]
  have hcpull : ∀ k r, ¬(k = key ∧ r = km) →
      contrib (PC.uRel key km) k r = contrib (s.pcs t) k r := by
    intro k r hne
    rw [h]
    show false = (key == k && km == r)
    exact (hbf k r hne).symm
  constructor
  · intro u hu2
    rw [update_pull guardPC (by rw [h]; rfl) u] at hu2
    exact hs.guardHeld u hu2
  · intro u v hu2 hv2
    rw [update_pull guardPC (by rw [h]; rfl) u] at hu2
    rw [update_pull guardPC (by rw [h]; rfl) v] at hv2
    exact hs.guardUniq u v hu2 hv2
  · intro k r hk
    have hk2 : mapDelete s.mm.keyToLock key k = some r := hk
    have hkk : k ≠ key := by
      intro he
      rw [he, mapDelete_self] at hk2
      exact absurd hk2 (by simp)
    rw [mapDelete_other _ hkk] at hk2
    have hrkm : r ≠ km := by
      intro he
      exact hkk (by
        have := (hs.keyCons k r hk2).1
        rw [he, hkc.1] at this
        exact this.symm)
    show ((Function.update s.mm.recs km _) r).count =
      ((pcSet (Function.update s.pcs t (PC.uRel key km)) fun q => contrib q k r).card : Int)
    rw [update_count_other _ _ _ hrkm]
    rw [pcSet_update_congr s.pcs t _ _ (hcpull k r (fun hpair => hkk hpair.1))]
    exact hs.countEq k r hk2
  · intro k r hk
    have hk2 : mapDelete s.mm.keyToLock key k = some r := hk
    have hkk : k ≠ key := by
      intro he
      rw [he, mapDelete_self] at hk2
      exact absurd hk2 (by simp)
    rw [mapDelete_other _ hkk] at hk2
    have hrkm : r ≠ km := by
      intro he
      exact hkk (by
        have := (hs.keyCons k r hk2).1
        rw [he, hkc.1] at this
        exact this.symm)
    show 1 ≤ ((Function.update s.mm.recs km _) r).count
    rw [update_count_other _ _ _ hrkm]
    exact hs.countPos k r hk2
  · intro u k r hcon
    have hcon2 : contrib (Function.update s.pcs t (PC.uRel key km) u) k r = true := hcon
    by_cases hut : u = t
    · rw [hut, Function.update_same] at hcon2
      exact absurd hcon2 (by simp [contrib])
    · rw [Function.update_noteq hut] at hcon2
      have hold := hs.mapRec u k r hcon2
      have hkk : k ≠ key := by
        intro he
        rw [he, hmk] at hold
        injection hold with hold2
        have hcard : 1 < (pcSet s.pcs fun q => contrib q key km).card := by
          apply Finset.one_lt_card.mpr
          refine ⟨u, ?_, t, ?_, hut⟩
          · rw [mem_pcSet]
            rw [he, ← hold2] at hcon2
            exact hcon2
          · rw [mem_pcSet]
            exact hct
        omega
      show mapDelete s.mm.keyToLock key k = some r
      rw [mapDelete_other _ hkk]
      exact hold
  · intro k r hk
    have hk2 : mapDelete s.mm.keyToLock key k = some r := hk
    have hkk : k ≠ key := by
      intro he
      rw [he, mapDelete_self] at hk2
      exact absurd hk2 (by simp)
    rw [mapDelete_other _ hkk] at hk2
    refine ⟨?_, (hs.keyCons k r hk2).2⟩
    show ((Function.update s.mm.recs km _) r).key = k
    rw [update_count_key]
    exact (hs.keyCons k r hk2).1
  · intro u k r hur
    have hur2 : usesRec (Function.update s.pcs t (PC.uRel key km) u) k r = true := hur
    by_cases hut : u = t
    · rw [hut, Function.update_same] at hur2
      simp [usesRec] at hur2
      constructor
      · show ((Function.update s.mm.recs km _) r).key = k
        rw [update_count_key, ← hur2.2, hkc.1]
        exact hur2.1
      · rw [← hur2.2]
        exact hkc.2
    · rw [Function.update_noteq hut] at hur2
      refine ⟨?_, (hs.pcKey u k r hur2).2⟩
      show ((Function.update s.mm.recs km _) r).key = k
      rw [update_count_key]
      exact (hs.pcKey u k r hur2).1
  · intro u v r h1 h2
    rw [update_pull (fun q => holdsLock q r) (hhpull r)] at h1 h2
    exact hs.holdsUniq u v r h1 h2
  · intro u r h1
    rw [update_pull (fun q => holdsLock q r) (hhpull r)] at h1
    show ((Function.update s.mm.recs km _) r).inner = true
    rw [update_count_inner]
    exact hs.holdsInner u r h1
  · intro r hr
    have hr2 : ((Function.update s.mm.recs km
        { s.mm.recs km with count := (s.mm.recs km).count - 1 }) r).inner = true := hr
    rw [update_count_inner] at hr2
    obtain ⟨u, hu2⟩ := hs.innerHolds r hr2
    refine ⟨u, ?_⟩
    show holdsLock (Function.update s.pcs t (PC.uRel key km) u) r = true
    rw [update_pull (fun q => holdsLock q r) (hhpull r)]
    exact hu2
  · intro r hr
    have hrn : s.mm.nextId ≤ r := hr
    have hrk : r ≠ km := by
      intro he
      subst he
      have hx := hkc.2
      omega
    constructor
    · show ((Function.update s.mm.recs km _) r).count = 0
      rw [update_count_other _ _ _ hrk]
      exact (hs.alloc r hrn).1
    · show ((Function.update s.mm.recs km _) r).inner = false
      rw [update_count_inner]
      exact (hs.alloc r hrn).2
  · intro r hrz
    have hrz2 : ∀ k, mapDelete s.mm.keyToLock key k ≠ some r := hrz
    by_cases hr : r = km
    · rw [hr]
      show ((Function.update s.mm.recs km _) km).count = 0
      rw [update_count_self]
      exact hc0
    · have hold : ∀ k, s.mm.keyToLock k ≠ some r := by
        intro k
        by_cases hkk : k = key
        · rw [hkk, hmk]
          intro hx
          injection hx with hx2
          exact hr hx2.symm
        · have := hrz2 k
          rwa [mapDelete_other _ hkk] at this
      show ((Function.update s.mm.recs km _) r).count = 0
      rw [update_count_other _ _ _ hr]
      exact hs.countZero r hold

/-- Preservation for the guarded bookkeeping of `unlock` when other
goroutines still reference the record: only the count is decremented. -/
theorem inv_unlockBook_keep {n : Nat} {s : State n} (hs : Inv s) (t : Fin n)
    (key : String) (km : Nat)
    (h : s.pcs t = .uBook key km) (hmk : s.mm.keyToLock key = some km)
    (hc0 : (s.mm.recs km).count - 1 ≠ 0) :
    Inv { s with
          mm := { s.mm with
                  recs := Function.update s.mm.recs km
                    { s.mm.recs km with count := (s.mm.recs km).count - 1 } }
          pcs := Function.update s.pcs t (.uRel key km) } := by
  have hkc := hs.keyCons key km hmk
  have huk : ∀ k, s.mm.keyToLock k = some km → k = key := by
    intro k hk
    have h1 := (hs.keyCons k km hk).1
    rw [hkc.1] at h1
    exact h1.symm
  have hct : contrib (s.pcs t) key km = true := by
    rw [h]
    simp [contrib]
  have hce := hs.countEq key km hmk
  unfold contributors at hce
  have hhpull : ∀ r, holdsLock (PC.uRel key km) r = holdsLock (s.pcs t) r := by
    intro r
    rw [h]
    rfl
  have hbf : ∀ (k : String) (r : Nat), ¬(k = key ∧ r = km) →
      (key == k && km == r) = false := by
    intro k r hne
    by_cases hk : k = key
    · by_cases hr : r = km
      · exact absurd ⟨hk, hr⟩ hne
      · have hx : (km == r) = false := by
          simp only [beq_eq_false_iff_ne, ne_eq]
          exact fun he => hr he.symm
        rw [hx, Bool.and_false]
    · have hx : (key == k) = false := by
        simp only [beq_eq_false_iff_ne, ne_eq]
        exact fun he => hk he.symm
      rw [hx, Bool.false_and]
  have hcpull : ∀ k r, ¬(k = key ∧ r = km) →
      contrib (PC.uRel key km) k r = contrib (s.pcs t) k r := by
    intro k r hne
    rw [h]
    show false = (key == k && km == r)
    exact (hbf k r hne).symm
  constructor
  · intro u hu2
    rw [update_pull guardPC (by rw [h]; rfl) u] at hu2
    exact hs.guardHeld u hu2
  · intro u v hu2 hv2
    rw [update_pull guardPC (by rw [h]; rfl) u] at hu2
    rw [update_pull guardPC (by rw [h]; rfl) v] at hv2
    exact hs.guardUniq u v hu2 hv2
  · intro k r hk
    have hk2 : s.mm.keyToLock k = some r := hk
    by_cases hr : km = r
    · rw [← hr] at hk2
      have hkk : k = key := huk k hk2
      rw [hkk, ← hr]
      show ((Function.update s.mm.recs km
          { s.mm.recs km with count := (s.mm.recs km).count - 1 }) km).count =
        ((pcSet (Function.update s.pcs t (PC.uRel key km))
          fun q => contrib q key km).card : Int)
      rw [update_count_self]
      have hexit := card_update_exit s.pcs t (PC.uRel key km)
        (fun q => contrib q key km) hct (by rfl)
      rw [hexit] at hce
      push_cast at hce ⊢
      omega
    · show ((Function.update s.mm.recs km _) r).count =
        ((pcSet (Function.update s.pcs t (PC.uRel key km)) fun q => contrib q k r).card : Int)
      rw [update_count_other _ _ _ (fun he => hr he.symm)]
      rw [pcSet_update_congr s.pcs t _ _ (hcpull k r (fun hpair => hr hpair.2.symm))]
      exact hs.countEq k r hk2
  · intro k r hk
    have hk2 : s.mm.keyToLock k = some r := hk
    by_cases hr : km = r
    · rw [← hr]
      show 1 ≤ ((Function.update s.mm.recs km
          { s.mm.recs km with count := (s.mm.recs km).count - 1 }) km).count
      rw [update_count_self]
      have := hs.countPos key km hmk
      omega
    · show 1 ≤ ((Function.update s.mm.recs km _) r).count
      rw [update_count_other _ _ _ (fun he => hr he.symm)]
      exact hs.countPos k r hk2
  · intro u k r hcon
    have hcon2 : contrib (Function.update s.pcs t (PC.uRel key km) u) k r = true := hcon
    by_cases hut : u = t
    · rw [hut, Function.update_same] at hcon2
      exact absurd hcon2 (by simp [contrib])
    · rw [Function.update_noteq hut] at hcon2
      exact hs.mapRec u k r hcon2
  · intro k r hk
    have hk2 : s.mm.keyToLock k = some r := hk
    refine ⟨?_, (hs.keyCons k r hk2).2⟩
    show ((Function.update s.mm.recs km _) r).key = k
    rw [update_count_key]
    exact (hs.keyCons k r hk2).1
  · intro u k r hur
    have hur2 : usesRec (Function.update s.pcs t (PC.uRel key km) u) k r = true := hur
    by_cases hut : u = t
    · rw [hut, Function.update_same] at hur2
      simp [usesRec] at hur2
      constructor
      · show ((Function.update s.mm.recs km _) r).key = k
        rw [update_count_key, ← hur2.2, hkc.1]
        exact hur2.1
      · rw [← hur2.2]
        exact hkc.2
    · rw [Function.update_noteq hut] at hur2
      refine ⟨?_, (hs.pcKey u k r hur2).2⟩
      show ((Function.update s.mm.recs km _) r).key = k
      rw [update_count_key]
      exact (hs.pcKey u k r hur2).1
  · intro u v r h1 h2
    rw [update_pull (fun q => holdsLock q r) (hhpull r)] at h1 h2
    exact hs.holdsUniq u v r h1 h2
  · intro u r h1
    rw [update_pull (fun q => holdsLock q r) (hhpull r)] at h1
    show ((Function.update s.mm.recs km _) r).inner = true
    rw [update_count_inner]
    exact hs.holdsInner u r h1
  · intro r hr
    have hr2 : ((Function.update s.mm.recs km
        { s.mm.recs km with count := (s.mm.recs km).count - 1 }) r).inner = true := hr
    rw [update_count_inner] at hr2
    obtain ⟨u, hu2⟩ := hs.innerHolds r hr2
    refine ⟨u, ?_⟩
    show holdsLock (Function.update s.pcs t (PC.uRel key km) u) r = true
    rw [update_pull (fun q => holdsLock q r) (hhpull r)]
    exact hu2
  · intro r hr
    have hrn : s.mm.nextId ≤ r := hr
    have hrk : r ≠ km := by
      intro he
      subst he
      have hx := hkc.2
      omega
    constructor
    · show ((Function.update s.mm.recs km _) r).count = 0
      rw [update_count_other _ _ _ hrk]
      exact (hs.alloc r hrn).1
    · show ((Function.update s.mm.recs km _) r).inner = false
      rw [update_count_inner]
      exact (hs.alloc r hrn).2
  · intro r hrz
    have hrz2 : ∀ k, s.mm.keyToLock k ≠ some r := hrz
    have hr : r ≠ km := by
      intro he
      exact hrz2 key (he ▸ hmk)
    show ((Function.update s.mm.recs km _) r).count = 0
    rw [update_count_other _ _ _ hr]
    exact hs.countZero r hrz2

/-- The invariant holds initially. -/
theorem inv_init (n : Nat) : Inv (init n) := by
  constructor <;> intros <;>
    simp_all [init, guardPC, contrib, holdsLock, usesRec, contributors, pcSet]

/-- The invariant is preserved by every step of the proper protocol. -/
theorem inv_step {n : Nat} {t : Fin n} {s s2 : State n} (hs : Inv s)
    (hstep : StepG false t s s2) : Inv s2 := by
  cases hstep with
  | start key h =>
    exact inv_pc_only hs t (.lAcq key) (by intro k r; rw [h]; rfl)
      (by intro r; rw [h]; rfl) (by intro k r hx; simp [usesRec] at hx)
      (by rw [h]; rfl)
  | lockAcq key h h2 =>
    exact inv_guard_acq hs t (.lBook key) h2 (by intro k r; rw [h]; rfl)
      (by intro r; rw [h]; rfl) (by intro k r hx; simp [usesRec] at hx)
  | lockBook key h =>
    cases hmk : s.mm.keyToLock key with
    | some km0 =>
      rw [lockGuarded_present hmk]
      exact inv_lockBook_present hs t key km0 h hmk
    | none =>
      rw [lockGuarded_absent hmk]
      exact inv_lockBook_absent hs t key h hmk
  | lockRel key km h =>
    exact inv_guard_rel hs t (.lInner key km) (by rw [h]; rfl) rfl
      (by intro k r; rw [h]; rfl) (by intro r; rw [h]; rfl)
      (by intro k r hx; rw [h]; exact hx)
  | lockInner key km h h2 =>
    exact inv_lockInner hs t key km h h2
  | unlockCall key km h =>
    exact inv_pc_only hs t (.uAcq key km) (by intro k r; rw [h]; rfl)
      (by intro r; rw [h]; rfl) (by intro k r hx; rw [h]; exact hx)
      (by rw [h]; rfl)
  | unlockAcq key km h h2 =>
    exact inv_guard_acq hs t (.uBook key km) h2 (by intro k r; rw [h]; rfl)
      (by intro r; rw [h]; rfl) (by intro k r hx; rw [h]; exact hx)
  | unlockBookOk key km mm2 h h2 =>
    have hmk : s.mm.keyToLock key = some km :=
      hs.mapRec t key km (by rw [h]; simp [contrib])
    by_cases hc0 : (s.mm.recs km).count - 1 = 0
    · rw [unlockGuarded_del hmk hc0] at h2
      injection h2 with h3
      rw [← h3]
      exact inv_unlockBook_del hs t key km h hmk hc0
    · rw [unlockGuarded_keep hmk hc0] at h2
      injection h2 with h3
      rw [← h3]
      exact inv_unlockBook_keep hs t key km h hmk hc0
  | unlockBookPanic key km h h2 =>
    have hmk : s.mm.keyToLock key = some km :=
      hs.mapRec t key km (by rw [h]; simp [contrib])
    by_cases hc0 : (s.mm.recs km).count - 1 = 0
    · rw [unlockGuarded_del hmk hc0] at h2
      exact absurd h2 (by simp)
    · rw [unlockGuarded_keep hmk hc0] at h2
      exact absurd h2 (by simp)
  | unlockRel key km h =>
    exact inv_guard_rel hs t (.uInner key km) (by rw [h]; rfl) rfl
      (by intro k r; rw [h]; rfl) (by intro r; rw [h]; rfl)
      (by intro k r hx; rw [h]; exact hx)
  | unlockInner key km h h2 =>
    exact inv_unlockInner hs t key km h h2
  | unlockInnerFatal key km h h2 =>
    have hth : holdsLock (s.pcs t) km = true := by
      rw [h]
      simp [holdsLock]
    have hx := hs.holdsInner t km hth
    rw [h2] at hx
    exact absurd hx (by simp)
  | restart key km h =>
    exact inv_pc_only hs t .idle (by intro k r; rw [h]; rfl)
      (by intro r; rw [h]; rfl) (by intro k r hx; simp [usesRec] at hx)
      (by rw [h]; rfl)
  | reUnlock key km hm h =>
    exact absurd hm (by simp)

/-- Every state reachable under the proper protocol satisfies the
invariant. -/
theorem inv_reachable {n : Nat} {s : State n} (h : Reachable s) : Inv s := by
  have h2 : Relation.ReflTransGen (StepAny false) (init n) s := h
  clear h
  induction h2 with
  | refl => exact inv_init n
  | tail h3 h4 ih =>
    obtain ⟨t, hstep⟩ := h4
    exact inv_step ih hstep

/-- Inversion: the only step a goroutine at `lRel` can take. -/
theorem step_from_lRel {n : Nat} {mis : Bool} {t : Fin n} {s s2 : State n}
    {key : String} {km : Nat}
    (hstep : StepG mis t s s2) (hpc : s.pcs t = .lRel key km) :
    s2 = { s with
           mm := { s.mm with lock := false },
           pcs := Function.update s.pcs t (.lInner key km) } := by
  cases hstep with
  | start key2 h =>
    rw [hpc] at h
    exact absurd h (by simp)
  | lockAcq key2 h h2 =>
    rw [hpc] at h
    exact absurd h (by simp)
  | lockBook key2 h =>
    rw [hpc] at h
    exact absurd h (by simp)
  | lockRel key2 km2 h =>
    rw [hpc] at h
    injection h with e1 e2
    subst e1
    subst e2
    rfl
  | lockInner key2 km2 h h2 =>
    rw [hpc] at h
    exact absurd h (by simp)
  | unlockCall key2 km2 h =>
    rw [hpc] at h
    exact absurd h (by simp)
  | unlockAcq key2 km2 h h2 =>
    rw [hpc] at h
    exact absurd h (by simp)
  | unlockBookOk key2 km2 mm2 h h2 =>
    rw [hpc] at h
    exact absurd h (by simp)
  | unlockBookPanic key2 km2 h h2 =>
    rw [hpc] at h
    exact absurd h (by simp)
  | unlockRel key2 km2 h =>
    rw [hpc] at h
    exact absurd h (by simp)
  | unlockInner key2 km2 h h2 =>
    rw [hpc] at h
    exact absurd h (by simp)
  | unlockInnerFatal key2 km2 h h2 =>
    rw [hpc] at h
    exact absurd h (by simp)
  | restart key2 km2 h =>
    rw [hpc] at h
    exact absurd h (by simp)
  | reUnlock key2 km2 hm h =>
    rw [hpc] at h
    exact absurd h (by simp)

/-- Inversion: the only step a goroutine at `lInner` can take. -/
theorem step_from_lInner {n : Nat} {mis : Bool} {t : Fin n} {s s2 : State n}
    {key : String} {km : Nat}
    (hstep : StepG mis t s s2) (hpc : s.pcs t = .lInner key km) :
    (s.mm.recs km).inner = false ∧
    s2 = { s with
           mm := { s.mm with
                   recs := Function.update s.mm.recs km
                     { s.mm.recs km with inner := true } },
           pcs := Function.update s.pcs t (.holding key km) } := by
  cases hstep with
  | start key2 h =>
    rw [hpc] at h
    exact absurd h (by simp)
  | lockAcq key2 h h2 =>
    rw [hpc] at h
    exact absurd h (by simp)
  | lockBook key2 h =>
    rw [hpc] at h
    exact absurd h (by simp)
  | lockRel key2 km2 h =>
    rw [hpc] at h
    exact absurd h (by simp)
  | lockInner key2 km2 h h2 =>
    rw [hpc] at h
    injection h with e1 e2
    subst e1
    subst e2
    exact ⟨h2, rfl⟩
  | unlockCall key2 km2 h =>
    rw [hpc] at h
    exact absurd h (by simp)
  | unlockAcq key2 km2 h h2 =>
    rw [hpc] at h
    exact absurd h (by simp)
  | unlockBookOk key2 km2 mm2 h h2 =>
    rw [hpc] at h
    exact absurd h (by simp)
  | unlockBookPanic key2 km2 h h2 =>
    rw [hpc] at h
    exact absurd h (by simp)
  | unlockRel key2 km2 h =>
    rw [hpc] at h
    exact absurd h (by simp)
  | unlockInner key2 km2 h h2 =>
    rw [hpc] at h
    exact absurd h (by simp)
  | unlockInnerFatal key2 km2 h h2 =>
    rw [hpc] at h
    exact absurd h (by simp)
  | restart key2 km2 h =>
    rw [hpc] at h
    exact absurd h (by simp)
  | reUnlock key2 km2 hm h =>
    rw [hpc] at h
    exact absurd h (by simp)

/-- Inversion: the only step a goroutine at `uBook` can take. -/
theorem step_from_uBook {n : Nat} {mis : Bool} {t : Fin n} {s s2 : State n}
    {key : String} {km : Nat}
    (hstep : StepG mis t s s2) (hpc : s.pcs t = .uBook key km) :
    (∃ mm2, unlockGuarded s.mm key = some mm2 ∧
      s2 = { s with mm := mm2, pcs := Function.update s.pcs t (.uRel key km) }) ∨
    (unlockGuarded s.mm key = none ∧
      s2 = { s with
             mm := { s.mm with lock := false },
             pcs := Function.update s.pcs t
               (.panicked "no lock for the given key") }) := by
  cases hstep with
  | start key2 h =>
    rw [hpc] at h
    exact absurd h (by simp)
  | lockAcq key2 h h2 =>
    rw [hpc] at h
    exact absurd h (by simp)
  | lockBook key2 h =>
    rw [hpc] at h
    exact absurd h (by simp)
  | lockRel key2 km2 h =>
    rw [hpc] at h
    exact absurd h (by simp)
  | lockInner key2 km2 h h2 =>
    rw [hpc] at h
    exact absurd h (by simp)
  | unlockCall key2 km2 h =>
    rw [hpc] at h
    exact absurd h (by simp)
  | unlockAcq key2 km2 h h2 =>
    rw [hpc] at h
    exact absurd h (by simp)
  | unlockBookOk key2 km2 mm2 h h2 =>
    rw [hpc] at h
    injection h with e1 e2
    subst e1
    subst e2
    exact Or.inl ⟨mm2, h2, rfl⟩
  | unlockBookPanic key2 km2 h h2 =>
    rw [hpc] at h
    injection h with e1 e2
    subst e1
    subst e2
    exact Or.inr ⟨h2, rfl⟩
  | unlockRel key2 km2 h =>
    rw [hpc] at h
    exact absurd h (by simp)
  | unlockInner key2 km2 h h2 =>
    rw [hpc] at h
    exact absurd h (by simp)
  | unlockInnerFatal key2 km2 h h2 =>
    rw [hpc] at h
    exact absurd h (by simp)
  | restart key2 km2 h =>
    rw [hpc] at h
    exact absurd h (by simp)
  | reUnlock key2 km2 hm h =>
    rw [hpc] at h
    exact absurd h (by simp)

/-- Inversion: the only step a goroutine at `uRel` can take. -/
theorem step_from_uRel {n : Nat} {mis : Bool} {t : Fin n} {s s2 : State n}
    {key : String} {km : Nat}
    (hstep : StepG mis t s s2) (hpc : s.pcs t = .uRel key km) :
    s2 = { s with
           mm := { s.mm with lock := false },
           pcs := Function.update s.pcs t (.uInner key km) } := by
  cases hstep with
  | start key2 h =>
    rw [hpc] at h
    exact absurd h (by simp)
  | lockAcq key2 h h2 =>
    rw [hpc] at h
    exact absurd h (by simp)
  | lockBook key2 h =>
    rw [hpc] at h
    exact absurd h (by simp)
  | lockRel key2 km2 h =>
    rw [hpc] at h
    exact absurd h (by simp)
  | lockInner key2 km2 h h2 =>
    rw [hpc] at h
    exact absurd h (by simp)
  | unlockCall key2 km2 h =>
    rw [hpc] at h
    exact absurd h (by simp)
  | unlockAcq key2 km2 h h2 =>
    rw [hpc] at h
    exact absurd h (by simp)
  | unlockBookOk key2 km2 mm2 h h2 =>
    rw [hpc] at h
    exact absurd h (by simp)
  | unlockBookPanic key2 km2 h h2 =>
    rw [hpc] at h
    exact absurd h (by simp)
  | unlockRel key2 km2 h =>
    rw [hpc] at h
    injection h with e1 e2
    subst e1
    subst e2
    rfl
  | unlockInner key2 km2 h h2 =>
    rw [hpc] at h
    exact absurd h (by simp)
  | unlockInnerFatal key2 km2 h h2 =>
    rw [hpc] at h
    exact absurd h (by simp)
  | restart key2 km2 h =>
    rw [hpc] at h
    exact absurd h (by simp)
  | reUnlock key2 km2 hm h =>
    rw [hpc] at h
    exact absurd h (by simp)

/-- Inversion: the only step a goroutine at `uInner` can take. -/
theorem step_from_uInner {n : Nat} {mis : Bool} {t : Fin n} {s s2 : State n}
    {key : String} {km : Nat}
    (hstep : StepG mis t s s2) (hpc : s.pcs t = .uInner key km) :
    ((s.mm.recs km).inner = true ∧
      s2 = { s with
             mm := { s.mm with
                     recs := Function.update s.mm.recs km
                       { s.mm.recs km with inner := false } },
             pcs := Function.update s.pcs t (.done key km) }) ∨
    ((s.mm.recs km).inner = false ∧
      s2 = { s with
             pcs := Function.update s.pcs t
               (.panicked "sync: unlock of unlocked mutex") }) := by
  cases hstep with
  | start key2 h =>
    rw [hpc] at h
    exact absurd h (by simp)
  | lockAcq key2 h h2 =>
    rw [hpc] at h
    exact absurd h (by simp)
  | lockBook key2 h =>
    rw [hpc] at h
    exact absurd h (by simp)
  | lockRel key2 km2 h =>
    rw [hpc] at h
    exact absurd h (by simp)
  | lockInner key2 km2 h h2 =>
    rw [hpc] at h
    exact absurd h (by simp)
  | unlockCall key2 km2 h =>
    rw [hpc] at h
    exact absurd h (by simp)
  | unlockAcq key2 km2 h h2 =>
    rw [hpc] at h
    exact absurd h (by simp)
  | unlockBookOk key2 km2 mm2 h h2 =>
    rw [hpc] at h
    exact absurd h (by simp)
  | unlockBookPanic key2 km2 h h2 =>
    rw [hpc] at h
    exact absurd h (by simp)
  | unlockRel key2 km2 h =>
    rw [hpc] at h
    exact absurd h (by simp)
  | unlockInner key2 km2 h h2 =>
    rw [hpc] at h
    injection h with e1 e2
    subst e1
    subst e2
    exact Or.inl ⟨h2, rfl⟩
  | unlockInnerFatal key2 km2 h h2 =>
    rw [hpc] at h
    injection h with e1 e2
    subst e1
    subst e2
    exact Or.inr ⟨h2, rfl⟩
  | restart key2 km2 h =>
    rw [hpc] at h
    exact absurd h (by simp)
  | reUnlock key2 km2 hm h =>
    rw [hpc] at h
    exact absurd h (by simp)

/-- Inversion: the only step a goroutine at `lBook` can take is the
guarded bookkeeping of `Lock`. -/
theorem step_from_lBook {n : Nat} {mis : Bool} {t : Fin n} {s s2 : State n}
    {key : String}
    (hstep : StepG mis t s s2) (hpc : s.pcs t = .lBook key) :
    s2 = { s with
           mm := (lockGuarded s.mm key).2,
           pcs := Function.update s.pcs t
             (.lRel key (lockGuarded s.mm key).1) } := by
  cases hstep with
  | start key2 h =>
    rw [hpc] at h
    exact absurd h (by simp)
  | lockAcq key2 h h2 =>
    rw [hpc] at h
    exact absurd h (by simp)
  | lockBook key2 h =>
    rw [hpc] at h
    injection h with e1
    subst e1
    rfl
  | lockRel key2 km2 h =>
    rw [hpc] at h
    exact absurd h (by simp)
  | lockInner key2 km2 h h2 =>
    rw [hpc] at h
    exact absurd h (by simp)
  | unlockCall key2 km2 h =>
    rw [hpc] at h
    exact absurd h (by simp)
  | unlockAcq key2 km2 h h2 =>
    rw [hpc] at h
    exact absurd h (by simp)
  | unlockBookOk key2 km2 mm2 h h2 =>
    rw [hpc] at h
    exact absurd h (by simp)
  | unlockBookPanic key2 km2 h h2 =>
    rw [hpc] at h
    exact absurd h (by simp)
  | unlockRel key2 km2 h =>
    rw [hpc] at h
    exact absurd h (by simp)
  | unlockInner key2 km2 h h2 =>
    rw [hpc] at h
    exact absurd h (by simp)
  | unlockInnerFatal key2 km2 h h2 =>
    rw [hpc] at h
    exact absurd h (by simp)
  | restart key2 km2 h =>
    rw [hpc] at h
    exact absurd h (by simp)
  | reUnlock key2 km2 hm h =>
    rw [hpc] at h
    exact absurd h (by simp)

/-! A concrete two-goroutine execution on key "a": goroutine `0` locks
and unlocks while goroutine `1` first blocks on the same key, then takes
its turn; at the end the map is empty again. -/

def sigma0 : State 2 := init 2
def sigma1 : State 2 :=
  { sigma0 with pcs := Function.update sigma0.pcs 0 (.lAcq "a") }

def sigma2 : State 2 :=
  { sigma1 with
    mm := { sigma1.mm with lock := true },
    pcs := Function.update sigma1.pcs 0 (.lBook "a") }

def sigma3 : State 2 :=
  { sigma2 with
    mm := (lockGuarded sigma2.mm "a").2,
    pcs := Function.update sigma2.pcs 0 (.lRel "a" (lockGuarded sigma2.mm "a").1) }

def sigma4 : State 2 :=
  { sigma3 with
    mm := { sigma3.mm with lock := false },
    pcs := Function.update sigma3.pcs 0 (.lInner "a" 0) }

def sigma5 : State 2 :=
  { sigma4 with
    mm := { sigma4.mm with
            recs := Function.update sigma4.mm.recs 0
              { sigma4.mm.recs 0 with inner := true } },
    pcs := Function.update sigma4.pcs 0 (.holding "a" 0) }

def sigma6 : State 2 :=
  { sigma5 with pcs := Function.update sigma5.pcs 1 (.lAcq "a") }

def sigma7 : State 2 :=
  { sigma6 with
    mm := { sigma6.mm with lock := true },
    pcs := Function.update sigma6.pcs 1 (.lBook "a") }

def sigma8 : State 2 :=
  { sigma7 with
    mm := (lockGuarded sigma7.mm "a").2,
    pcs := Function.update sigma7.pcs 1 (.lRel "a" (lockGuarded sigma7.mm "a").1) }

def sigma9 : State 2 :=
  { sigma8 with
    mm := { sigma8.mm with lock := false },
    pcs := Function.update sigma8.pcs 1 (.lInner "a" 0) }

def sigma10 : State 2 :=
  { sigma9 with pcs := Function.update sigma9.pcs 0 (.uAcq "a" 0) }

def sigma11 : State 2 :=
  { sigma10 with
    mm := { sigma10.mm with lock := true },
    pcs := Function.update sigma10.pcs 0 (.uBook "a" 0) }

def sigma12mm : MutexMap :=
  { sigma11.mm with
    recs := Function.update sigma11.mm.recs 0
      { sigma11.mm.recs 0 with count := (sigma11.mm.recs 0).count - 1 } }

def sigma12 : State 2 :=
  { sigma11 with
    mm := sigma12mm,
    pcs := Function.update sigma11.pcs 0 (.uRel "a" 0) }

def sigma13 : State 2 :=
  { sigma12 with
    mm := { sigma12.mm with lock := false },
    pcs := Function.update sigma12.pcs 0 (.uInner "a" 0) }

def sigma14 : State 2 :=
  { sigma13 with
    mm := { sigma13.mm with
            recs := Function.update sigma13.mm.recs 0
              { sigma13.mm.recs 0 with inner := false } },
    pcs := Function.update sigma13.pcs 0 (.done "a" 0) }

def sigma15 : State 2 :=
  { sigma14 with
    mm := { sigma14.mm with
            recs := Function.update sigma14.mm.recs 0
              { sigma14.mm.recs 0 with inner := true } },
    pcs := Function.update sigma14.pcs 1 (.holding "a" 0) }

def sigma16 : State 2 :=
  { sigma15 with pcs := Function.update sigma15.pcs 1 (.uAcq "a" 0) }

def sigma17 : State 2 :=
  { sigma16 with
    mm := { sigma16.mm with lock := true },
    pcs := Function.update sigma16.pcs 1 (.uBook "a" 0) }

def sigma18mm : MutexMap :=
  { sigma17.mm with
    recs := Function.update sigma17.mm.recs 0
      { sigma17.mm.recs 0 with count := (sigma17.mm.recs 0).count - 1 },
    keyToLock := mapDelete sigma17.mm.keyToLock "a" }

def sigma18 : State 2 :=
  { sigma17 with
    mm := sigma18mm,
    pcs := Function.update sigma17.pcs 1 (.uRel "a" 0) }

def sigma19 : State 2 :=
  { sigma18 with
    mm := { sigma18.mm with lock := false },
    pcs := Function.update sigma18.pcs 1 (.uInner "a" 0) }

def sigma20 : State 2 :=
  { sigma19 with
    mm := { sigma19.mm with
            recs := Function.update sigma19.mm.recs 0
              { sigma19.mm.recs 0 with inner := false } },
    pcs := Function.update sigma19.pcs 1 (.done "a" 0) }

theorem sstep1 : StepG false (0 : Fin 2) sigma0 sigma1 :=
  StepG.start sigma0 "a" rfl

theorem sstep2 : StepG false (0 : Fin 2) sigma1 sigma2 :=
  StepG.lockAcq sigma1 "a" rfl rfl

theorem sstep3 : StepG false (0 : Fin 2) sigma2 sigma3 :=
  StepG.lockBook sigma2 "a" rfl

theorem sstep4 : StepG false (0 : Fin 2) sigma3 sigma4 :=
  StepG.lockRel sigma3 "a" 0 rfl

theorem sstep5 : StepG false (0 : Fin 2) sigma4 sigma5 :=
  StepG.lockInner sigma4 "a" 0 rfl rfl

theorem sstep6 : StepG false (1 : Fin 2) sigma5 sigma6 :=
  StepG.start sigma5 "a" rfl

theorem sstep7 : StepG false (1 : Fin 2) sigma6 sigma7 :=
  StepG.lockAcq sigma6 "a" rfl rfl

theorem sstep8 : StepG false (1 : Fin 2) sigma7 sigma8 :=
  StepG.lockBook sigma7 "a" rfl

theorem sstep9 : StepG false (1 : Fin 2) sigma8 sigma9 :=
  StepG.lockRel sigma8 "a" 0 rfl

theorem sstep10 : StepG false (0 : Fin 2) sigma9 sigma10 :=
  StepG.unlockCall sigma9 "a" 0 rfl

theorem sstep11 : StepG false (0 : Fin 2) sigma10 sigma11 :=
  StepG.unlockAcq sigma10 "a" 0 rfl rfl

theorem sstep12 : StepG false (0 : Fin 2) sigma11 sigma12 :=
  StepG.unlockBookOk sigma11 "a" 0 sigma12mm rfl rfl

theorem sstep13 : StepG false (0 : Fin 2) sigma12 sigma13 :=
  StepG.unlockRel sigma12 "a" 0 rfl

theorem sstep14 : StepG false (0 : Fin 2) sigma13 sigma14 :=
  StepG.unlockInner sigma13 "a" 0 rfl rfl

theorem sstep15 : StepG false (1 : Fin 2) sigma14 sigma15 :=
  StepG.lockInner sigma14 "a" 0 rfl rfl

theorem sstep16 : StepG false (1 : Fin 2) sigma15 sigma16 :=
  StepG.unlockCall sigma15 "a" 0 rfl

theorem sstep17 : StepG false (1 : Fin 2) sigma16 sigma17 :=
  StepG.unlockAcq sigma16 "a" 0 rfl rfl

theorem sstep18 : StepG false (1 : Fin 2) sigma17 sigma18 :=
  StepG.unlockBookOk sigma17 "a" 0 sigma18mm rfl rfl

theorem sstep19 : StepG false (1 : Fin 2) sigma18 sigma19 :=
  StepG.unlockRel sigma18 "a" 0 rfl

theorem sstep20 : StepG false (1 : Fin 2) sigma19 sigma20 :=
  StepG.unlockInner sigma19 "a" 0 rfl rfl

theorem sreach0 : Reachable sigma0 := Relation.ReflTransGen.refl

theorem sreach1 : Reachable sigma1 :=
  Relation.ReflTransGen.tail sreach0 ⟨0, sstep1⟩

theorem sreach2 : Reachable sigma2 :=
  Relation.ReflTransGen.tail sreach1 ⟨0, sstep2⟩

theorem sreach3 : Reachable sigma3 :=
  Relation.ReflTransGen.tail sreach2 ⟨0, sstep3⟩

theorem sreach4 : Reachable sigma4 :=
  Relation.ReflTransGen.tail sreach3 ⟨0, sstep4⟩

theorem sreach5 : Reachable sigma5 :=
  Relation.ReflTransGen.tail sreach4 ⟨0, sstep5⟩

theorem sreach6 : Reachable sigma6 :=
  Relation.ReflTransGen.tail sreach5 ⟨1, sstep6⟩

theorem sreach7 : Reachable sigma7 :=
  Relation.ReflTransGen.tail sreach6 ⟨1, sstep7⟩

theorem sreach8 : Reachable sigma8 :=
  Relation.ReflTransGen.tail sreach7 ⟨1, sstep8⟩

theorem sreach9 : Reachable sigma9 :=
  Relation.ReflTransGen.tail sreach8 ⟨1, sstep9⟩

theorem sreach10 : Reachable sigma10 :=
  Relation.ReflTransGen.tail sreach9 ⟨0, sstep10⟩

theorem sreach11 : Reachable sigma11 :=
  Relation.ReflTransGen.tail sreach10 ⟨0, sstep11⟩

theorem sreach12 : Reachable sigma12 :=
  Relation.ReflTransGen.tail sreach11 ⟨0, sstep12⟩

theorem sreach13 : Reachable sigma13 :=
  Relation.ReflTransGen.tail sreach12 ⟨0, sstep13⟩

theorem sreach14 : Reachable sigma14 :=
  Relation.ReflTransGen.tail sreach13 ⟨0, sstep14⟩

theorem sreach15 : Reachable sigma15 :=
  Relation.ReflTransGen.tail sreach14 ⟨1, sstep15⟩

theorem sreach16 : Reachable sigma16 :=
  Relation.ReflTransGen.tail sreach15 ⟨1, sstep16⟩

theorem sreach17 : Reachable sigma17 :=
  Relation.ReflTransGen.tail sreach16 ⟨1, sstep17⟩

theorem sreach18 : Reachable sigma18 :=
  Relation.ReflTransGen.tail sreach17 ⟨1, sstep18⟩

theorem sreach19 : Reachable sigma19 :=
  Relation.ReflTransGen.tail sreach18 ⟨1, sstep19⟩

theorem sreach20 : Reachable sigma20 :=
  Relation.ReflTransGen.tail sreach19 ⟨1, sstep20⟩

/-! A concrete single-goroutine misuse execution on key "a": a proper
`Lock`/`Unlock` pair followed by a second `Unlock()` on the stale
handle, which runs into `panic("no lock for the given key")`. -/

def mu0 : State 1 := init 1

def mu1 : State 1 :=
  { mu0 with pcs := Function.update mu0.pcs 0 (.lAcq "a") }

def mu2 : State 1 :=
  { mu1 with
    mm := { mu1.mm with lock := true },
    pcs := Function.update mu1.pcs 0 (.lBook "a") }

def mu3 : State 1 :=
  { mu2 with
    mm := (lockGuarded mu2.mm "a").2,
    pcs := Function.update mu2.pcs 0 (.lRel "a" (lockGuarded mu2.mm "a").1) }

def mu4 : State 1 :=
  { mu3 with
    mm := { mu3.mm with lock := false },
    pcs := Function.update mu3.pcs 0 (.lInner "a" 0) }

def mu5 : State 1 :=
  { mu4 with
    mm := { mu4.mm with
            recs := Function.update mu4.mm.recs 0
              { mu4.mm.recs 0 with inner := true } },
    pcs := Function.update mu4.pcs 0 (.holding "a" 0) }

def mu6 : State 1 :=
  { mu5 with pcs := Function.update mu5.pcs 0 (.uAcq "a" 0) }

def mu7 : State 1 :=
  { mu6 with
    mm := { mu6.mm with lock := true },
    pcs := Function.update mu6.pcs 0 (.uBook "a" 0) }

def mu8mm : MutexMap :=
  { mu7.mm with
    recs := Function.update mu7.mm.recs 0
      { mu7.mm.recs 0 with count := (mu7.mm.recs 0).count - 1 },
    keyToLock := mapDelete mu7.mm.keyToLock "a" }

def mu8 : State 1 :=
  { mu7 with
    mm := mu8mm,
    pcs := Function.update mu7.pcs 0 (.uRel "a" 0) }

def mu9 : State 1 :=
  { mu8 with
    mm := { mu8.mm with lock := false },
    pcs := Function.update mu8.pcs 0 (.uInner "a" 0) }

def mu10 : State 1 :=
  { mu9 with
    mm := { mu9.mm with
            recs := Function.update mu9.mm.recs 0
              { mu9.mm.recs 0 with inner := false } },
    pcs := Function.update mu9.pcs 0 (.done "a" 0) }

def mu11 : State 1 :=
  { mu10 with pcs := Function.update mu10.pcs 0 (.uAcq "a" 0) }

def mu12 : State 1 :=
  { mu11 with
    mm := { mu11.mm with lock := true },
    pcs := Function.update mu11.pcs 0 (.uBook "a" 0) }

def mu13 : State 1 :=
  { mu12 with
    mm := { mu12.mm with lock := false },
    pcs := Function.update mu12.pcs 0
      (.panicked "no lock for the given key") }

theorem mstep1 : StepG true (0 : Fin 1) mu0 mu1 :=
  StepG.start mu0 "a" rfl

theorem mstep2 : StepG true (0 : Fin 1) mu1 mu2 :=
  StepG.lockAcq mu1 "a" rfl rfl

theorem mstep3 : StepG true (0 : Fin 1) mu2 mu3 :=
  StepG.lockBook mu2 "a" rfl

theorem mstep4 : StepG true (0 : Fin 1) mu3 mu4 :=
  StepG.lockRel mu3 "a" 0 rfl

theorem mstep5 : StepG true (0 : Fin 1) mu4 mu5 :=
  StepG.lockInner mu4 "a" 0 rfl rfl

theorem mstep6 : StepG true (0 : Fin 1) mu5 mu6 :=
  StepG.unlockCall mu5 "a" 0 rfl

theorem mstep7 : StepG true (0 : Fin 1) mu6 mu7 :=
  StepG.unlockAcq mu6 "a" 0 rfl rfl

theorem mstep8 : StepG true (0 : Fin 1) mu7 mu8 :=
  StepG.unlockBookOk mu7 "a" 0 mu8mm rfl rfl

theorem mstep9 : StepG true (0 : Fin 1) mu8 mu9 :=
  StepG.unlockRel mu8 "a" 0 rfl

theorem mstep10 : StepG true (0 : Fin 1) mu9 mu10 :=
  StepG.unlockInner mu9 "a" 0 rfl rfl

theorem mstep11 : StepG true (0 : Fin 1) mu10 mu11 :=
  StepG.reUnlock mu10 "a" 0 rfl rfl

theorem mstep12 : StepG true (0 : Fin 1) mu11 mu12 :=
  StepG.unlockAcq mu11 "a" 0 rfl rfl

theorem mstep13 : StepG true (0 : Fin 1) mu12 mu13 :=
  StepG.unlockBookPanic mu12 "a" 0 rfl rfl

theorem mreach0 : MReachable mu0 := Relation.ReflTransGen.refl

theorem mreach1 : MReachable mu1 :=
  Relation.ReflTransGen.tail mreach0 ⟨0, mstep1⟩

theorem mreach2 : MReachable mu2 :=
  Relation.ReflTransGen.tail mreach1 ⟨0, mstep2⟩

theorem mreach3 : MReachable mu3 :=
  Relation.ReflTransGen.tail mreach2 ⟨0, mstep3⟩

theorem mreach4 : MReachable mu4 :=
  Relation.ReflTransGen.tail mreach3 ⟨0, mstep4⟩

theorem mreach5 : MReachable mu5 :=
  Relation.ReflTransGen.tail mreach4 ⟨0, mstep5⟩

theorem mreach6 : MReachable mu6 :=
  Relation.ReflTransGen.tail mreach5 ⟨0, mstep6⟩

theorem mreach7 : MReachable mu7 :=
  Relation.ReflTransGen.tail mreach6 ⟨0, mstep7⟩

theorem mreach8 : MReachable mu8 :=
  Relation.ReflTransGen.tail mreach7 ⟨0, mstep8⟩

theorem mreach9 : MReachable mu9 :=
  Relation.ReflTransGen.tail mreach8 ⟨0, mstep9⟩

theorem mreach10 : MReachable mu10 :=
  Relation.ReflTransGen.tail mreach9 ⟨0, mstep10⟩

theorem mreach11 : MReachable mu11 :=
  Relation.ReflTransGen.tail mreach10 ⟨0, mstep11⟩

theorem mreach12 : MReachable mu12 :=
  Relation.ReflTransGen.tail mreach11 ⟨0, mstep12⟩

theorem mreach13 : MReachable mu13 :=
  Relation.ReflTransGen.tail mreach12 ⟨0, mstep13⟩

/-! A concrete single-goroutine execution locking the empty-string
key. -/

def tau0 : State 1 := init 1

def tau1 : State 1 :=
  { tau0 with pcs := Function.update tau0.pcs 0 (.lAcq "") }

def tau2 : State 1 :=
  { tau1 with
    mm := { tau1.mm with lock := true },
    pcs := Function.update tau1.pcs 0 (.lBook "") }

def tau3 : State 1 :=
  { tau2 with
    mm := (lockGuarded tau2.mm "").2,
    pcs := Function.update tau2.pcs 0 (.lRel "" (lockGuarded tau2.mm "").1) }

def tau4 : State 1 :=
  { tau3 with
    mm := { tau3.mm with lock := false },
    pcs := Function.update tau3.pcs 0 (.lInner "" 0) }

def tau5 : State 1 :=
  { tau4 with
    mm := { tau4.mm with
            recs := Function.update tau4.mm.recs 0
              { tau4.mm.recs 0 with inner := true } },
    pcs := Function.update tau4.pcs 0 (.holding "" 0) }

theorem tstep1 : StepG false (0 : Fin 1) tau0 tau1 :=
  StepG.start tau0 "" rfl

theorem tstep2 : StepG false (0 : Fin 1) tau1 tau2 :=
  StepG.lockAcq tau1 "" rfl rfl

theorem tstep3 : StepG false (0 : Fin 1) tau2 tau3 :=
  StepG.lockBook tau2 "" rfl

theorem tstep4 : StepG false (0 : Fin 1) tau3 tau4 :=
  StepG.lockRel tau3 "" 0 rfl

theorem tstep5 : StepG false (0 : Fin 1) tau4 tau5 :=
  StepG.lockInner tau4 "" 0 rfl rfl

theorem treach0 : Reachable tau0 := Relation.ReflTransGen.refl

theorem treach1 : Reachable tau1 :=
  Relation.ReflTransGen.tail treach0 ⟨0, tstep1⟩

theorem treach2 : Reachable tau2 :=
  Relation.ReflTransGen.tail treach1 ⟨0, tstep2⟩

theorem treach3 : Reachable tau3 :=
  Relation.ReflTransGen.tail treach2 ⟨0, tstep3⟩

theorem treach4 : Reachable tau4 :=
  Relation.ReflTransGen.tail treach3 ⟨0, tstep4⟩

theorem treach5 : Reachable tau5 :=
  Relation.ReflTransGen.tail treach4 ⟨0, tstep5⟩

/-- C1: Mutual exclusion per key: in every reachable state at most one
goroutine holds the inner lock of any record, a held inner lock is in
the locked state, and a goroutine blocked in `Lock` at the inner-lock
acquisition point cannot return (enter its critical section) while
another goroutine holds that record's inner lock: a second `Lock(k)`
does not return before the first holder's `Unlock()`. -/
theorem mutexmap_mutual_exclusion {n : Nat} (s : State n) (h : Reachable s) :
    (∀ t u : Fin n, ∀ r, holdsLock (s.pcs t) r = true →
        holdsLock (s.pcs u) r = true → t = u) ∧
    (∀ t : Fin n, ∀ r, holdsLock (s.pcs t) r = true → (s.mm.recs r).inner = true) ∧
    (∀ t u : Fin n, ∀ key km (s2 : State n), s.pcs t = .lInner key km →
        holdsLock (s.pcs u) km = true → StepG false t s s2 →
        s2.pcs t ≠ .holding key km) := by
  have hi := inv_reachable h
  refine ⟨hi.holdsUniq, hi.holdsInner, ?_⟩
  intro t u key km s2 hpc hu hstep
  have hfree := (step_from_lInner hstep hpc).1
  have hheld := hi.holdsInner u km hu
  rw [hfree] at hheld
  exact absurd hheld (by simp)

/-- Witness for C1 at the reachable state `sigma9`, where goroutine 0
holds record 0 and goroutine 1 is blocked on it. -/
theorem mutexmap_mutual_exclusion_witness :
    ((0 : Fin 2) = 0) ∧ (sigma9.mm.recs 0).inner = true :=
  ⟨(mutexmap_mutual_exclusion sigma9 sreach9).1 0 0 0 (by decide) (by decide),
   (mutexmap_mutual_exclusion sigma9 sreach9).2.1 0 0 (by decide)⟩

/-- C2: No-leak invariant: in every reachable state observed with the
top-level guard free, a record is in the map exactly when its count is
non-zero; consequently when no goroutine holds or awaits any lock (all
are idle or done) the map is empty. -/
theorem mutexmap_no_leak {n : Nat} (s : State n) (h : Reachable s)
    (hg : s.mm.lock = false) :
    (∀ r, (∃ k, s.mm.keyToLock k = some r) ↔ (s.mm.recs r).count ≠ 0) ∧
    ((∀ t : Fin n, s.pcs t = .idle ∨ ∃ key km, s.pcs t = .done key km) →
      ∀ k, s.mm.keyToLock k = none) := by
  have hi := inv_reachable h
  constructor
  · intro r
    constructor
    · rintro ⟨k, hk⟩
      have := hi.countPos k r hk
      omega
    · intro hc
      by_contra hno
      push_neg at hno
      exact hc (hi.countZero r fun k => hno k)
  · intro hidle k
    cases hk : s.mm.keyToLock k with
    | none => rfl
    | some r =>
      have hce := hi.countEq k r hk
      have hpos := hi.countPos k r hk
      have hempty : (contributors s k r).card = 0 := by
        rw [Finset.card_eq_zero, Finset.eq_empty_iff_forall_not_mem]
        intro u hu
        unfold contributors at hu
        rw [mem_pcSet] at hu
        rcases hidle u with hx | ⟨key2, km2, hx⟩ <;> rw [hx] at hu <;>
          simp [contrib] at hu
      rw [hempty] at hce
      push_cast at hce
      omega

/-- Witness for C2 at the final state `sigma20` of the concrete
execution: both goroutines are done and the map is empty. -/
theorem mutexmap_no_leak_witness :
    sigma20.mm.keyToLock "a" = none ∧ sigma20.mm.keyToLock "b" = none := by
  have hall : ∀ t : Fin 2, sigma20.pcs t = .idle ∨
      ∃ key km, sigma20.pcs t = .done key km := by
    intro t
    fin_cases t
    · exact Or.inr ⟨"a", 0, by decide⟩
    · exact Or.inr ⟨"a", 0, by decide⟩
  exact ⟨(mutexmap_no_leak sigma20 sreach20 rfl).2 hall "a",
         (mutexmap_no_leak sigma20 sreach20 rfl).2 hall "b"⟩

/-- C3: the `Lock` algorithm: under the guard the key is looked up; if
absent a record with count `0` is created and inserted and its count
incremented (to `0 + 1`); if present the existing record's count is
incremented and the map is unchanged; no map entry other than the key's
changes; the step ending the guarded section releases the guard and
moves to the inner-lock acquisition point *before* the inner lock is
acquired; the acquisition step leaves the registry bookkeeping alone
and enters the critical section with the `Unlocker` bound to the chosen
record. -/
theorem mutexmap_lock_algorithm (n : Nat) :
    (∀ (mm : MutexMap) (key : String), mm.keyToLock key = none →
        (lockGuarded mm key).1 = mm.nextId ∧
        (lockGuarded mm key).2.keyToLock key = some mm.nextId ∧
        (lockGuarded mm key).2.recs mm.nextId =
          { key := key, count := 0 + 1, inner := false } ∧
        (lockGuarded mm key).2.nextId = mm.nextId + 1) ∧
    (∀ (mm : MutexMap) (key : String) (km : Nat), mm.keyToLock key = some km →
        (lockGuarded mm key).1 = km ∧
        (lockGuarded mm key).2.keyToLock = mm.keyToLock ∧
        ((lockGuarded mm key).2.recs km).count = (mm.recs km).count + 1) ∧
    (∀ (mm : MutexMap) (key k2 : String), k2 ≠ key →
        (lockGuarded mm key).2.keyToLock k2 = mm.keyToLock k2) ∧
    (∀ (mis : Bool) (t : Fin n) (s s2 : State n) (key : String) (km : Nat),
        StepG mis t s s2 → s.pcs t = .lRel key km →
        s2.mm.lock = false ∧ s2.pcs t = .lInner key km ∧
        s2.mm.keyToLock = s.mm.keyToLock ∧ s2.mm.recs = s.mm.recs) ∧
    (∀ (mis : Bool) (t : Fin n) (s s2 : State n) (key : String) (km : Nat),
        StepG mis t s s2 → s.pcs t = .lInner key km →
        s2.mm.lock = s.mm.lock ∧ s2.mm.keyToLock = s.mm.keyToLock ∧
        s2.pcs t = .holding key km) := by
  refine ⟨?_, ?_, ?_, ?_, ?_⟩
  · intro mm key habs
    rw [lockGuarded_absent habs]
    refine ⟨rfl, by simp, ?_, rfl⟩
    show (Function.update mm.recs mm.nextId
      { key := key, count := 1, inner := false }) mm.nextId = _
    rw [Function.update_same]
    simp
  · intro mm key km hk
    rw [lockGuarded_present hk]
    exact ⟨rfl, rfl, by rw [update_count_self]⟩
  · intro mm key k2 hne
    cases hmk : mm.keyToLock key with
    | some km =>
      rw [lockGuarded_present hmk]
    | none =>
      rw [lockGuarded_absent hmk]
      exact mapInsert_other _ _ hne
  · intro mis t s s2 key km hstep hpc
    have hs2 := step_from_lRel hstep hpc
    subst hs2
    refine ⟨rfl, ?_, rfl, rfl⟩
    show Function.update s.pcs t (.lInner key km) t = _
    rw [Function.update_same]
  · intro mis t s s2 key km hstep hpc
    have hs2 := (step_from_lInner hstep hpc).2
    subst hs2
    refine ⟨rfl, rfl, ?_⟩
    show Function.update s.pcs t (.holding key km) t = _
    rw [Function.update_same]

/-- Witness for C3: the absent-key bookkeeping on the initial registry
and the concrete guard-releasing step `sigma3 → sigma4`. -/
theorem mutexmap_lock_algorithm_witness :
    (lockGuarded (init 1).mm "a").1 = 0 ∧
    sigma4.mm.lock = false ∧ sigma4.pcs 0 = .lInner "a" 0 := by
  refine ⟨((mutexmap_lock_algorithm 1).1 (init 1).mm "a" rfl).1, ?_, ?_⟩
  · exact ((mutexmap_lock_algorithm 2).2.2.2.1 false 0 sigma3 sigma4 "a" 0
      sstep4 rfl).1
  · exact ((mutexmap_lock_algorithm 2).2.2.2.1 false 0 sigma3 sigma4 "a" 0
      sstep4 rfl).2.1

/-- C4: the `Unlock` algorithm: under the guard the handle's record is
decremented and removed from the map exactly when the count reaches
zero, other keys' entries are unchanged and the inner bit is untouched;
the guarded step moves to the deferred guard release, which happens
before the final step releases the inner lock, and that final step no
longer changes the map. -/
theorem mutexmap_unlock_algorithm (n : Nat) :
    (∀ (mm : MutexMap) (key : String) (km : Nat), mm.keyToLock key = some km →
        ∃ mm2, unlockGuarded mm key = some mm2 ∧
          (mm2.recs km).count = (mm.recs km).count - 1 ∧
          mm2.keyToLock key =
            (if (mm.recs km).count - 1 = 0 then none else some km) ∧
          (∀ k2, k2 ≠ key → mm2.keyToLock k2 = mm.keyToLock k2) ∧
          (mm2.recs km).inner = (mm.recs km).inner ∧
          mm2.lock = mm.lock) ∧
    (∀ (mis : Bool) (t : Fin n) (s s2 : State n) (key : String) (km : Nat),
        StepG mis t s s2 → s.pcs t = .uBook key km →
        s.mm.keyToLock key = some km →
        ∃ mm2, unlockGuarded s.mm key = some mm2 ∧ s2.mm = mm2 ∧
          s2.pcs t = .uRel key km) ∧
    (∀ (mis : Bool) (t : Fin n) (s s2 : State n) (key : String) (km : Nat),
        StepG mis t s s2 → s.pcs t = .uRel key km →
        s2.mm.lock = false ∧ s2.pcs t = .uInner key km ∧
        s2.mm.keyToLock = s.mm.keyToLock ∧ s2.mm.recs = s.mm.recs) ∧
    (∀ (mis : Bool) (t : Fin n) (s s2 : State n) (key : String) (km : Nat),
        StepG mis t s s2 → s.pcs t = .uInner key km →
        (s.mm.recs km).inner = true →
        s2.mm.keyToLock = s.mm.keyToLock ∧ s2.mm.lock = s.mm.lock ∧
        (s2.mm.recs km).inner = false ∧ s2.pcs t = .done key km) := by
  refine ⟨?_, ?_, ?_, ?_⟩
  · intro mm key km hk
    by_cases hc0 : (mm.recs km).count - 1 = 0
    · refine ⟨_, unlockGuarded_del hk hc0, ?_, ?_, ?_, ?_, rfl⟩
      · rw [update_count_self]
      · rw [if_pos hc0]
        exact mapDelete_self _ _
      · intro k2 hne
        exact mapDelete_other _ hne
      · rw [update_count_inner]
    · refine ⟨_, unlockGuarded_keep hk hc0, ?_, ?_, ?_, ?_, rfl⟩
      · rw [update_count_self]
      · rw [if_neg hc0]
        exact hk
      · intro k2 hne
        rfl
      · rw [update_count_inner]
  · intro mis t s s2 key km hstep hpc hk
    rcases step_from_uBook hstep hpc with ⟨mm2, hsome, hs2⟩ | ⟨hnone, _⟩
    · subst hs2
      refine ⟨mm2, hsome, rfl, ?_⟩
      show Function.update s.pcs t (.uRel key km) t = _
      rw [Function.update_same]
    · by_cases hc0 : (s.mm.recs km).count - 1 = 0
      · rw [unlockGuarded_del hk hc0] at hnone
        exact absurd hnone (by simp)
      · rw [unlockGuarded_keep hk hc0] at hnone
        exact absurd hnone (by simp)
  · intro mis t s s2 key km hstep hpc
    have hs2 := step_from_uRel hstep hpc
    subst hs2
    refine ⟨rfl, ?_, rfl, rfl⟩
    show Function.update s.pcs t (.uInner key km) t = _
    rw [Function.update_same]
  · intro mis t s s2 key km hstep hpc hin
    rcases step_from_uInner hstep hpc with ⟨_, hs2⟩ | ⟨hfree, _⟩
    · subst hs2
      refine ⟨rfl, rfl, ?_, ?_⟩
      · show ((Function.update s.mm.recs km
          { s.mm.recs km with inner := false }) km).inner = false
        rw [Function.update_same]
      · show Function.update s.pcs t (.done key km) t = _
        rw [Function.update_same]
    · rw [hin] at hfree
      exact absurd hfree (by simp)

/-- Witness for C4: the concrete decrement at `sigma11` (count 2, no
removal) and the guard-release step `sigma12 → sigma13`. -/
theorem mutexmap_unlock_algorithm_witness :
    (∃ mm2, unlockGuarded sigma11.mm "a" = some mm2 ∧
      (mm2.recs 0).count = (sigma11.mm.recs 0).count - 1) ∧
    sigma13.mm.lock = false := by
  constructor
  · obtain ⟨mm2, h1, h2, _⟩ :=
      (mutexmap_unlock_algorithm 2).1 sigma11.mm "a" 0 (by decide)
    exact ⟨mm2, h1, h2⟩
  · exact ((mutexmap_unlock_algorithm 2).2.2.1 false 0 sigma12 sigma13 "a" 0
      sstep13 rfl).1

/-- C5 counterexample: in the reachable state `sigma11` goroutine 0 is
inside `unlock`'s guarded section, so it holds the top-level guard,
while it still holds the inner lock of record 0 (which is locked): the
claim that the guard is never held while blocked on *or holding* a
per-key inner lock is false on the code, because `keyMutex.Unlock`
calls `mm.unlock` (which takes the guard) before `km.inner.Unlock()`. -/
theorem mutexmap_guard_counterexample :
    Reachable sigma11 ∧ sigma11.mm.lock = true ∧
    guardPC (sigma11.pcs 0) = true ∧ holdsLock (sigma11.pcs 0) 0 = true ∧
    (sigma11.mm.recs 0).inner = true :=
  ⟨sreach11, rfl, by decide, by decide, by decide⟩

/-- C5 amended: the guard is never held while *blocked on* (acquiring)
a per-key inner lock: `Lock` releases the guard before moving to the
inner-lock acquisition point and the acquisition step itself does not
touch the guard or the map; `Unlock` releases the guard before
releasing the inner lock; and the two guarded bookkeeping sections only
do map/counter bookkeeping, never changing the guard bit or any inner
lock (although `Unlock`'s guarded section runs while the caller still
holds the inner lock). -/
theorem mutexmap_guard_discipline (n : Nat) :
    (∀ (mis : Bool) (t : Fin n) (s s2 : State n) (key : String) (km : Nat),
        StepG mis t s s2 → s.pcs t = .lRel key km →
        s2.mm.lock = false ∧ s2.pcs t = .lInner key km) ∧
    (∀ (mis : Bool) (t : Fin n) (s s2 : State n) (key : String) (km : Nat),
        StepG mis t s s2 → s.pcs t = .lInner key km →
        s2.mm.lock = s.mm.lock ∧ s2.mm.keyToLock = s.mm.keyToLock ∧
        s2.mm.nextId = s.mm.nextId) ∧
    (∀ (mis : Bool) (t : Fin n) (s s2 : State n) (key : String) (km : Nat),
        StepG mis t s s2 → s.pcs t = .uRel key km →
        s2.mm.lock = false ∧ s2.pcs t = .uInner key km) ∧
    (∀ (t : Fin n) (s s2 : State n) (key : String), Reachable s →
        StepG false t s s2 → s.pcs t = .lBook key →
        s2.mm.lock = s.mm.lock ∧
        ∀ r, (s2.mm.recs r).inner = (s.mm.recs r).inner) ∧
    (∀ (t : Fin n) (s s2 : State n) (key : String) (km : Nat), Reachable s →
        StepG false t s s2 → s.pcs t = .uBook key km →
        s2.mm.lock = s.mm.lock ∧
        ∀ r, (s2.mm.recs r).inner = (s.mm.recs r).inner) := by
  refine ⟨?_, ?_, ?_, ?_, ?_⟩
  · intro mis t s s2 key km hstep hpc
    have hs2 := step_from_lRel hstep hpc
    subst hs2
    refine ⟨rfl, ?_⟩
    show Function.update s.pcs t (.lInner key km) t = _
    rw [Function.update_same]
  · intro mis t s s2 key km hstep hpc
    have hs2 := (step_from_lInner hstep hpc).2
    subst hs2
    exact ⟨rfl, rfl, rfl⟩
  · intro mis t s s2 key km hstep hpc
    have hs2 := step_from_uRel hstep hpc
    subst hs2
    refine ⟨rfl, ?_⟩
    show Function.update s.pcs t (.uInner key km) t = _
    rw [Function.update_same]
  · intro t s s2 key hr hstep hpc
    have hi := inv_reachable hr
    have hs2 := step_from_lBook hstep hpc
    subst hs2
    cases hmk : s.mm.keyToLock key with
    | some km =>
      rw [lockGuarded_present hmk]
      exact ⟨rfl, fun r => update_count_inner _ _ _ r⟩
    | none =>
      rw [lockGuarded_absent hmk]
      refine ⟨rfl, ?_⟩
      intro r
      show ((Function.update s.mm.recs s.mm.nextId
          { key := key, count := 1, inner := false }) r).inner = (s.mm.recs r).inner
      by_cases hrN : r = s.mm.nextId
      · subst hrN
        rw [Function.update_same]
        exact ((hi.alloc s.mm.nextId (le_refl _)).2).symm
      · rw [Function.update_noteq hrN]
  · intro t s s2 key km hr hstep hpc
    have hi := inv_reachable hr
    have hmk : s.mm.keyToLock key = some km :=
      hi.mapRec t key km (by rw [hpc]; simp [contrib])
    rcases step_from_uBook hstep hpc with ⟨mm2, hsome, hs2⟩ | ⟨hnone, _⟩
    · subst hs2
      by_cases hc0 : (s.mm.recs km).count - 1 = 0
      · rw [unlockGuarded_del hmk hc0] at hsome
        injection hsome with hsome2
        rw [← hsome2]
        exact ⟨rfl, fun r => update_count_inner _ _ _ r⟩
      · rw [unlockGuarded_keep hmk hc0] at hsome
        injection hsome with hsome2
        rw [← hsome2]
        exact ⟨rfl, fun r => update_count_inner _ _ _ r⟩
    · by_cases hc0 : (s.mm.recs km).count - 1 = 0
      · rw [unlockGuarded_del hmk hc0] at hnone
        exact absurd hnone (by simp)
      · rw [unlockGuarded_keep hmk hc0] at hnone
        exact absurd hnone (by simp)

/-- Witness for C5 (amended) at the concrete guard-releasing steps
`sigma3 → sigma4` (in `Lock`) and `sigma12 → sigma13` (in `unlock`). -/
theorem mutexmap_guard_discipline_witness :
    sigma4.mm.lock = false ∧ sigma13.mm.lock = false :=
  ⟨((mutexmap_guard_discipline 2).1 false 0 sigma3 sigma4 "a" 0 sstep4 rfl).1,
   ((mutexmap_guard_discipline 2).2.2.1 false 0 sigma12 sigma13 "a" 0
     sstep13 rfl).1⟩

/-- C6: Independence across keys: a goroutine blocked in `Lock` at the
inner-lock acquisition point waits only on its own key's record (which
is in the map and carries that key), that record's lock is held by some
other goroutine of the same key whenever it is locked, and as soon as
the record's inner lock is free the blocked goroutine can proceed, no
matter what other keys' records look like: holding `k1` never blocks
`Lock(k2)` for `k2 ≠ k1` beyond the transient guard section. -/
theorem mutexmap_key_independence {n : Nat} (s : State n) (h : Reachable s)
    (t : Fin n) (key : String) (km : Nat) (hpc : s.pcs t = .lInner key km) :
    s.mm.keyToLock key = some km ∧ (s.mm.recs km).key = key ∧
    ((s.mm.recs km).inner = true →
        ∃ u : Fin n, u ≠ t ∧ holdsLock (s.pcs u) km = true ∧
          usesRec (s.pcs u) key km = true) ∧
    ((s.mm.recs km).inner = false →
        StepG false t s
          { s with
            mm := { s.mm with
                    recs := Function.update s.mm.recs km
                      { s.mm.recs km with inner := true } },
            pcs := Function.update s.pcs t (.holding key km) }) := by
  have hi := inv_reachable h
  have hcon : contrib (s.pcs t) key km = true := by
    rw [hpc]
    simp [contrib]
  have hmk := hi.mapRec t key km hcon
  refine ⟨hmk, (hi.keyCons key km hmk).1, ?_, ?_⟩
  · intro hin
    obtain ⟨u, hu⟩ := hi.innerHolds km hin
    have hut : u ≠ t := by
      intro he
      rw [he, hpc] at hu
      simp [holdsLock] at hu
    refine ⟨u, hut, hu, ?_⟩
    obtain ⟨k2, husr⟩ := holdsLock_usesRec hu
    have h1 := (hi.pcKey u k2 km husr).1
    have h2 := (hi.keyCons key km hmk).1
    rw [h1] at h2
    rw [← h2]
    exact husr
  · intro hfree
    exact StepG.lockInner s key km hpc hfree

/-- Witness for C6 at the reachable state `sigma9`: goroutine 1 is
blocked on key "a"; its record is in the map and some other goroutine
(goroutine 0) holds it. -/
theorem mutexmap_key_independence_witness :
    sigma9.mm.keyToLock "a" = some 0 ∧
    ∃ u : Fin 2, u ≠ 1 ∧ holdsLock (sigma9.pcs u) 0 = true := by
  have hx := mutexmap_key_independence sigma9 sreach9 1 "a" 0 (by decide)
  refine ⟨hx.1, ?_⟩
  obtain ⟨u, h1, h2, _⟩ := hx.2.2.1 (by decide)
  exact ⟨u, h1, h2⟩

/-- C7 counterexample: the misuse execution `mu0 → … → mu13` — a proper
`Lock`/`Unlock` pair on "a" followed by a second `Unlock()` on the
stale handle — reaches a state where the goroutine has panicked with
"no lock for the given key".  So the claim that Unlock misuse triggers
no runtime check and surfaces no externally observable error is false
on the code: `mm.unlock` checks the lookup and panics. -/
theorem mutexmap_unlock_misuse_counterexample :
    MReachable mu13 ∧ mu13.pcs 0 = .panicked "no lock for the given key" :=
  ⟨mreach13, by decide⟩

/-- C7 amended: Unlock misuse is only partially guarded: when the
handle's key is absent from the map (for example a double unlock after
the record was already removed) the guarded section of `unlock` panics
with "no lock for the given key"; when a record for the key is present
(for example because another goroutine concurrently holds or awaits it)
the duplicate unlock is not detected and silently decrements that
record's count. -/
theorem mutexmap_unlock_misuse (mm : MutexMap) (key : String) :
    (mm.keyToLock key = none → unlockGuarded mm key = none) ∧
    (∀ km, mm.keyToLock key = some km →
        ∃ mm2, unlockGuarded mm key = some mm2 ∧
          (mm2.recs km).count = (mm.recs km).count - 1) := by
  constructor
  · exact unlockGuarded_absent
  · intro km hk
    by_cases hc0 : (mm.recs km).count - 1 = 0
    · refine ⟨_, unlockGuarded_del hk hc0, ?_⟩
      rw [update_count_self]
    · refine ⟨_, unlockGuarded_keep hk hc0, ?_⟩
      rw [update_count_self]

/-- Witness for C7 (amended): the two branches at concrete registries
(`mu12`, whose map no longer has "a", and `sigma11`, whose map does). -/
theorem mutexmap_unlock_misuse_witness :
    unlockGuarded mu12.mm "a" = none ∧
    ∃ mm2, unlockGuarded sigma11.mm "a" = some mm2 ∧
      (mm2.recs 0).count = (sigma11.mm.recs 0).count - 1 :=
  ⟨(mutexmap_unlock_misuse mu12.mm "a").1 (by decide),
   (mutexmap_unlock_misuse sigma11.mm "a").2 0 (by decide)⟩

/-- C8: Empty-key uniformity: `Lock("")` performs exactly the generic
create/increment bookkeeping, leaves every non-empty key's entry
unchanged, mutual exclusion holds among holders of the empty key's
record, and in every reachable state the empty key's record is distinct
from every non-empty key's record. -/
theorem mutexmap_empty_key {n : Nat} (s : State n) (h : Reachable s) :
    (∀ mm : MutexMap, mm.keyToLock "" = none →
        (lockGuarded mm "").1 = mm.nextId ∧
        (lockGuarded mm "").2.keyToLock "" = some mm.nextId ∧
        (lockGuarded mm "").2.recs mm.nextId =
          { key := "", count := 0 + 1, inner := false }) ∧
    (∀ (mm : MutexMap) (km : Nat), mm.keyToLock "" = some km →
        (lockGuarded mm "").1 = km ∧
        ((lockGuarded mm "").2.recs km).count = (mm.recs km).count + 1) ∧
    (∀ (mm : MutexMap) (k2 : String), k2 ≠ "" →
        (lockGuarded mm "").2.keyToLock k2 = mm.keyToLock k2) ∧
    (∀ t u : Fin n, ∀ r, s.mm.keyToLock "" = some r →
        holdsLock (s.pcs t) r = true → holdsLock (s.pcs u) r = true → t = u) ∧
    (∀ r r2 : Nat, ∀ k2, s.mm.keyToLock "" = some r →
        s.mm.keyToLock k2 = some r2 → k2 ≠ "" → r2 ≠ r) := by
  have hi := inv_reachable h
  refine ⟨?_, ?_, ?_, ?_, ?_⟩
  · intro mm habs
    rw [lockGuarded_absent habs]
    refine ⟨rfl, by simp, ?_⟩
    show (Function.update mm.recs mm.nextId
      { key := "", count := 1, inner := false }) mm.nextId = _
    rw [Function.update_same]
    simp
  · intro mm km hk
    rw [lockGuarded_present hk]
    exact ⟨rfl, by rw [update_count_self]⟩
  · intro mm k2 hne
    cases hmk : mm.keyToLock "" with
    | some km =>
      rw [lockGuarded_present hmk]
    | none =>
      rw [lockGuarded_absent hmk]
      exact mapInsert_other _ _ hne
  · intro t u r _ h1 h2
    exact hi.holdsUniq t u r h1 h2
  · intro r r2 k2 h1 h2 hne heq
    apply hne
    have ha := (hi.keyCons "" r h1).1
    have hb := (hi.keyCons k2 r2 h2).1
    rw [heq, ha] at hb
    exact hb.symm

/-- Witness for C8: the empty-key bookkeeping on the initial registry
and mutual exclusion at the reachable state `tau5`, where goroutine 0
holds the empty key's record. -/
theorem mutexmap_empty_key_witness :
    (lockGuarded (init 1).mm "").1 = 0 ∧ ((0 : Fin 1) = 0) :=
  ⟨((mutexmap_empty_key tau5 treach5).1 (init 1).mm rfl).1,
   (mutexmap_empty_key tau5 treach5).2.2.2.1 0 0 0 (by decide) (by decide)
     (by decide)⟩

/-- C9: if `Unlock` runs its guarded section when the map has no record
for the handle's key, the goroutine panics with exactly
"no lock for the given key", the deferred unlock releases the guard,
and the map and all records — in particular the handle's inner lock —
are untouched (the panic happens before `km.inner.Unlock()`).  The
panic step is enabled and it is the only step the goroutine can
take from there. -/
theorem mutexmap_unlock_panic {n : Nat} (mis : Bool) (t : Fin n)
    (s : State n) (key : String) (km : Nat)
    (hpc : s.pcs t = .uBook key km) (habs : s.mm.keyToLock key = none) :
    StepG mis t s
      { s with
        mm := { s.mm with lock := false },
        pcs := Function.update s.pcs t
          (.panicked "no lock for the given key") } ∧
    (∀ s2, StepG mis t s s2 →
        s2.pcs t = .panicked "no lock for the given key" ∧
        s2.mm.keyToLock = s.mm.keyToLock ∧ s2.mm.recs = s.mm.recs ∧
        s2.mm.lock = false) := by
  have hnone := unlockGuarded_absent habs
  constructor
  · exact StepG.unlockBookPanic s key km hpc hnone
  · intro s2 hstep
    rcases step_from_uBook hstep hpc with ⟨mm2, hsome, _⟩ | ⟨_, hs2⟩
    · rw [hnone] at hsome
      exact absurd hsome (by simp)
    · subst hs2
      refine ⟨?_, rfl, rfl, rfl⟩
      show Function.update s.pcs t (.panicked "no lock for the given key") t = _
      rw [Function.update_same]

/-- Witness for C9 at the concrete misuse state `mu12` and its step to
`mu13`. -/
theorem mutexmap_unlock_panic_witness :
    mu13.pcs 0 = .panicked "no lock for the given key" ∧
    mu13.mm.keyToLock = mu12.mm.keyToLock := by
  have hx := mutexmap_unlock_panic true (0 : Fin 1) mu12 "a" 0 (by decide)
    (by decide)
  have hy := hx.2 mu13 mstep13
  exact ⟨hy.1, hy.2.1⟩

/-- C10: `Lock` returns the per-key record itself as the `Unlocker`:
when the record is present, the guarded section returns its existing
address, allocates nothing, and leaves the map entry pointing at it;
hence two consecutive `Lock(key)` bookkeeping sections with the record
remaining in the map return the identical handle; and the transition
out of the bookkeeping point binds the goroutine to exactly the address
the guarded section computed. -/
theorem mutexmap_lock_handle_identity (n : Nat) :
    (∀ (mm : MutexMap) (key : String) (km : Nat), mm.keyToLock key = some km →
        (lockGuarded mm key).1 = km ∧
        (lockGuarded mm key).2.nextId = mm.nextId ∧
        (lockGuarded mm key).2.keyToLock key = some km) ∧
    (∀ (mm : MutexMap) (key : String) (km : Nat), mm.keyToLock key = some km →
        (lockGuarded (lockGuarded mm key).2 key).1 = (lockGuarded mm key).1) ∧
    (∀ (mis : Bool) (t : Fin n) (s s2 : State n) (key : String),
        StepG mis t s s2 → s.pcs t = .lBook key →
        s2.pcs t = .lRel key (lockGuarded s.mm key).1) := by
  refine ⟨?_, ?_, ?_⟩
  · intro mm key km hk
    rw [lockGuarded_present hk]
    exact ⟨rfl, rfl, hk⟩
  · intro mm key km hk
    have h2 : (lockGuarded mm key).2.keyToLock key = some km := by
      rw [lockGuarded_present hk]
      exact hk
    rw [lockGuarded_present h2, lockGuarded_present hk]
  · intro mis t s s2 key hstep hpc
    have hs2 := step_from_lBook hstep hpc
    subst hs2
    show Function.update s.pcs t (.lRel key (lockGuarded s.mm key).1) t = _
    rw [Function.update_same]

/-- Witness for C10 at the concrete registry of `sigma5`, where key "a"
maps to record 0. -/
theorem mutexmap_lock_handle_identity_witness :
    (lockGuarded sigma5.mm "a").1 = 0 ∧
    (lockGuarded (lockGuarded sigma5.mm "a").2 "a").1 =
      (lockGuarded sigma5.mm "a").1 :=
  ⟨((mutexmap_lock_handle_identity 1).1 sigma5.mm "a" 0 (by decide)).1,
   (mutexmap_lock_handle_identity 1).2.1 sigma5.mm "a" 0 (by decide)⟩

end MutexMapModel
